import Mathlib

/-!
Verification development for the inspector_protocol encoding library.

This file gives a shallow embedding, in Lean, of the C++ sources under
`encoding/`:

* `status.h`            — the `Error` enumeration and `Status` (error, pos);
* `binary_encoding.cc`  — the CBOR (RFC 7049 profile) primitive encoders and
  decoders, the `JsonToBinaryEncoder` handler and the `ParseBinary` /
  `ParseMap` / `ParseArray` / `ParseValue` reader;
* `json_parser.cc`      — the recursive-descent JSON tokenizer and parser;
* `json_std_string_writer.cc` — the minified-JSON writer handler.

Conventions of the embedding:

* Byte sequences and code-unit sequences are `List Nat`; a C++ `span` that a
  routine advances is modelled by returning the remaining suffix (for the
  byte-oriented CBOR reader) or a position index (for the JSON parser, whose
  source works with `start`/`end` pointers and pointer arithmetic).
* Machine integers are `Nat`/`Int`; truncating conversions are explicit
  (`% 256`, wrap at `2 ^ 64`, ...).
* Doubles appear in two roles.  In the CBOR encoder/reader a double is only
  moved around as its 64-bit IEEE-754 pattern (the C++ union reinterpretation
  is a bijection between doubles and bit patterns), so those events carry the
  bit pattern as a `Nat`.  In the JSON parser a double is produced by the
  injected `StrToD` capability; the parser is parameterised by an abstract
  `strToD : List Nat → Option ℚ`, a rational faithfully standing in for the
  finite double it returns (the parser only compares it with exactly
  representable `int32` bounds and with its own truncation, and both
  comparisons are exact on finite doubles).
* Handler interfaces (`JsonParserHandler`) are modelled by returning the list
  of events delivered to the handler, in delivery order.
* Recursive routines take an explicit `fuel` argument so that every
  definition is structurally recursive and computable by the kernel.  Each
  entry point supplies fuel that dominates the recursion depth of the C++
  code (which always advances by at least one byte / code unit per loop
  iteration); running out of fuel yields the artificial `FUEL_EXHAUSTED`
  result, which is unreachable with the fuel the entry points supply.
-/

namespace InspectorProtocol

/-- The error codes of `status.h` (enum class `Error`).  `FUEL_EXHAUSTED` is an
artifact of the fuel-based embedding (see the file comment), not part of the
source enumeration; it is unreachable with the fuel the entry points supply. -/
inductive Err
  | OK
  | JSON_PARSER_UNPROCESSED_INPUT_REMAINS
  | JSON_PARSER_STACK_LIMIT_EXCEEDED
  | JSON_PARSER_NO_INPUT
  | JSON_PARSER_INVALID_TOKEN
  | JSON_PARSER_INVALID_NUMBER
  | JSON_PARSER_INVALID_STRING
  | JSON_PARSER_UNEXPECTED_ARRAY_END
  | JSON_PARSER_COMMA_OR_ARRAY_END_EXPECTED
  | JSON_PARSER_STRING_LITERAL_EXPECTED
  | JSON_PARSER_COLON_EXPECTED
  | JSON_PARSER_UNEXPECTED_OBJECT_END
  | JSON_PARSER_COMMA_OR_OBJECT_END_EXPECTED
  | JSON_PARSER_VALUE_EXPECTED
  | BINARY_ENCODING_NO_INPUT
  | BINARY_ENCODING_INVALID_START_BYTE
  | BINARY_ENCODING_UNEXPECTED_EOF_EXPECTED_VALUE
  | BINARY_ENCODING_UNEXPECTED_EOF_IN_ARRAY
  | BINARY_ENCODING_UNEXPECTED_EOF_IN_MAP
  | BINARY_ENCODING_INVALID_MAP_KEY
  | BINARY_ENCODING_STACK_LIMIT_EXCEEDED
  | BINARY_ENCODING_UNSUPPORTED_VALUE
  | BINARY_ENCODING_INVALID_STRING16
  | BINARY_ENCODING_INVALID_STRING8
  | BINARY_ENCODING_STRING8_MUST_BE_7BIT
  | BINARY_ENCODING_INVALID_DOUBLE
  | BINARY_ENCODING_INVALID_SIGNED
  | FUEL_EXHAUSTED
deriving DecidableEq

/-- `status.h` class `Status`: an error code plus an `int64_t` position. -/
structure Status where
  error : Err
  pos : Int
deriving DecidableEq

/-- The events a `JsonParserHandler` (json_parser_handler.h) receives, for the
handlers that consume events (the CBOR reader's output, the JSON-to-CBOR
encoder's and the JSON writer's input).  `doubleV` carries the 64-bit IEEE-754
bit pattern of the double.  `error` models `HandleError(Status)` as
implemented by `JsonToBinaryEncoder` (binary_encoding.cc); the string-writer
`Writer` (json_std_string_writer.cc) ignores the payload. -/
inductive Event
  | objectBegin
  | objectEnd
  | arrayBegin
  | arrayEnd
  | str (chars : List Nat)
  | intV (v : Int)
  | doubleV (bits : Nat)
  | boolV (b : Bool)
  | null
  | error (status : Status)
deriving DecidableEq

/-- Code units of a string literal, for readable test inputs. -/
def toCodes (s : String) : List Nat := s.toList.map Char.toNat

namespace Binary

/-- binary_encoding.cc `kMajorTypeBitShift`. -/
def kMajorTypeBitShift : Nat := 5

/-- binary_encoding.cc `EncodeInitialByte`: the major type in the top 3 bits,
the additional info in the low 5 bits. -/
def EncodeInitialByte (type additionalInfo : Nat) : Nat :=
  (type <<< kMajorTypeBitShift) ||| (additionalInfo &&& 0x1f)

/-- RFC 7049 Section 2.3, Table 2 (binary_encoding.cc). -/
def kEncodedTrue : Nat := EncodeInitialByte 7 21

def kEncodedFalse : Nat := EncodeInitialByte 7 20

def kEncodedNull : Nat := EncodeInitialByte 7 22

def kInitialByteForDouble : Nat := EncodeInitialByte 7 27

def kInitialByteIndefiniteLengthArray : Nat := EncodeInitialByte 4 31

def kInitialByteIndefiniteLengthMap : Nat := EncodeInitialByte 5 31

def kStopByte : Nat := EncodeInitialByte 7 31

/-- binary_encoding.cc `kStackLimit`. -/
def kStackLimit : Nat := 1000

/-- binary_encoding.cc `WriteBytesMostSignificantByteFirst<T>`: the
`sizeof(T) = w` bytes of `v`, most significant first (the loop runs
`shift_bytes` from `w - 1` down to `0` and pushes `0xff & v >> (shift_bytes * 8)`). -/
def WriteBytesMostSignificantByteFirst (w v : Nat) : List Nat :=
  (List.range w).reverse.map (fun shiftBytes => 0xff &&& (v >>> (shiftBytes * 8)))

/-- binary_encoding.cc `ReadBytesMostSignificantByteFirst<T>`: folds
`result |= in[w - 1 - shift_bytes] << (shift_bytes * 8)` for
`shift_bytes = 0, ..., w - 1`. -/
def ReadBytesMostSignificantByteFirst (w : Nat) (b : List Nat) : Nat :=
  (List.range w).foldl (fun result shiftBytes =>
    result ||| ((b.getD (w - 1 - shiftBytes) 0) <<< (shiftBytes * 8))) 0

/-- binary_encoding.cc `WriteItemStart`: initial byte plus the payload bytes
for `value`, choosing the smallest of the four width classes.  (In the
`value ≤ 0xff` branch the C++ pushes `value` converted to `uint8_t`, which is
the identity there.) -/
def WriteItemStart (type value : Nat) : List Nat :=
  if value < 24 then [EncodeInitialByte type value]
  else if value ≤ 0xff then [EncodeInitialByte type 24, value]
  else if value ≤ 0xffff then
    EncodeInitialByte type 25 :: WriteBytesMostSignificantByteFirst 2 value
  else if value ≤ 0xffffffff then
    EncodeInitialByte type 26 :: WriteBytesMostSignificantByteFirst 4 value
  else EncodeInitialByte type 27 :: WriteBytesMostSignificantByteFirst 8 value

/-- binary_encoding.cc `ReadItemStart`: reads the initial byte and the payload
of the indicated width; returns the major type, the value and the remaining
bytes (the C++ advances the span only on success). -/
def ReadItemStart (bytes : List Nat) : Option (Nat × Nat × List Nat) :=
  match bytes with
  | [] => none
  | initialByte :: rest =>
    let type := (initialByte &&& 0xe0) >>> kMajorTypeBitShift
    let additionalInformation := initialByte &&& 0x1f
    if additionalInformation < 24 then some (type, additionalInformation, rest)
    else if additionalInformation = 24 then
      if bytes.length < 2 then none
      else some (type, rest.getD 0 0, bytes.drop 2)
    else if additionalInformation = 25 then
      if bytes.length < 3 then none
      else some (type, ReadBytesMostSignificantByteFirst 2 rest, bytes.drop 3)
    else if additionalInformation = 26 then
      if bytes.length < 5 then none
      else some (type, ReadBytesMostSignificantByteFirst 4 rest, bytes.drop 5)
    else if additionalInformation = 27 then
      if bytes.length < 9 then none
      else some (type, ReadBytesMostSignificantByteFirst 8 rest, bytes.drop 9)
    else none

/-- binary_encoding.cc `EncodeUnsigned` (major type 0). -/
def EncodeUnsigned (value : Nat) : List Nat := WriteItemStart 0 value

/-- binary_encoding.cc `DecodeUnsigned`: requires major type 0. -/
def DecodeUnsigned (bytes : List Nat) : Option (Nat × List Nat) :=
  match ReadItemStart bytes with
  | none => none
  | some (type, value, rest) => if type = 0 then some (value, rest) else none

/-- binary_encoding.cc `internal::EncodeNegative` (major type 1, payload
`-(value + 1)`); the source asserts `value < 0`. -/
def EncodeNegative (value : Int) : List Nat := WriteItemStart 1 (-(value + 1)).toNat

/-- binary_encoding.cc `EncodeSigned`: major type 0 for `value ≥ 0`, else
major type 1 via `EncodeNegative`. -/
def EncodeSigned (value : Int) : List Nat :=
  if 0 ≤ value then EncodeUnsigned value.toNat else EncodeNegative value

/-- binary_encoding.cc `DecodeSigned`: accepts major type 0 with a value at
most `int32` max, or major type 1 whose decoded value
`-static_cast<int64_t>(encoded) - 1` (64-bit wrap made explicit) is at least
`int32` min. -/
def DecodeSigned (bytes : List Nat) : Option (Int × List Nat) :=
  match ReadItemStart bytes with
  | none => none
  | some (type, encodedValue, rest) =>
    if type = 0 then
      if encodedValue ≤ 2147483647 then some ((encodedValue : Int), rest) else none
    else if type = 1 then
      let cast64 : Int := if encodedValue < 2 ^ 63 then (encodedValue : Int)
        else (encodedValue : Int) - 2 ^ 64
      let decodedValue : Int := -cast64 - 1
      if -2147483648 ≤ decodedValue then some (decodedValue, rest) else none
    else none

/-- binary_encoding.cc `EncodeUTF16String`: a BYTE_STRING (major type 2) whose
size is in bytes (`2 * length`), each UTF-16 code unit written least
significant byte first (the `push_back` of a `uint16_t` truncates to
`uint8_t`). -/
def EncodeUTF16String (chars : List Nat) : List Nat :=
  WriteItemStart 2 (2 * chars.length) ++
    chars.flatMap (fun twoBytes => [twoBytes % 256, (twoBytes >>> 8) % 256])

/-- Reassembles UTF-16 code units from consecutive byte pairs, low byte first
(the loop body of `DecodeUTF16String`: `(high_byte << 8) | low_byte`). -/
def PairsToChars : List Nat → List Nat
  | lowByte :: highByte :: rest => ((highByte <<< 8) ||| lowByte) :: PairsToChars rest
  | _ => []

/-- binary_encoding.cc `DecodeUTF16String`: major type 2, enough payload
bytes, even byte count; advances past the payload on success. -/
def DecodeUTF16String (bytes : List Nat) : Option (List Nat × List Nat) :=
  match ReadItemStart bytes with
  | none => none
  | some (type, numBytes, rest) =>
    if type ≠ 2 then none
    else if rest.length < numBytes then none
    else if numBytes % 2 = 1 then none
    else some (PairsToChars (rest.take numBytes), rest.drop numBytes)

/-- binary_encoding.cc `kEncodedDoubleSize` (1 initial byte + 8 payload). -/
def kEncodedDoubleSize : Nat := 9

/-- binary_encoding.cc `EncodeDouble`, on the double's 64-bit pattern. -/
def EncodeDouble (bits : Nat) : List Nat :=
  kInitialByteForDouble :: WriteBytesMostSignificantByteFirst 8 bits

/-- binary_encoding.cc `DecodeDouble`. -/
def DecodeDouble (bytes : List Nat) : Option (Nat × List Nat) :=
  if bytes.length < kEncodedDoubleSize then none
  else if bytes.getD 0 0 ≠ kInitialByteForDouble then none
  else some (ReadBytesMostSignificantByteFirst 8 (bytes.drop 1),
    bytes.drop kEncodedDoubleSize)

/-- The state of binary_encoding.cc `JsonToBinaryEncoder`: the caller-owned
output buffer and status slot. -/
structure EncoderState where
  out : List Nat
  status : Status
deriving DecidableEq

/-- One event dispatch of `JsonToBinaryEncoder`.  Note that only
`HandleError` touches the status: it records the supplied status and clears
the output; the other handlers append unconditionally. -/
def JsonToBinaryEncoderStep (st : EncoderState) : Event → EncoderState
  | .objectBegin => { st with out := st.out ++ [kInitialByteIndefiniteLengthMap] }
  | .objectEnd => { st with out := st.out ++ [kStopByte] }
  | .arrayBegin => { st with out := st.out ++ [kInitialByteIndefiniteLengthArray] }
  | .arrayEnd => { st with out := st.out ++ [kStopByte] }
  | .str chars => { st with out := st.out ++ EncodeUTF16String chars }
  | .doubleV bits => { st with out := st.out ++ EncodeDouble bits }
  | .intV v => { st with out := st.out ++ EncodeSigned v }
  | .boolV b => { st with out := st.out ++ [if b then kEncodedTrue else kEncodedFalse] }
  | .null => { st with out := st.out ++ [kEncodedNull] }
  | .error e => { out := [], status := e }

/-- Feeding a whole event sequence to a fresh `JsonToBinaryEncoder` (the
constructor resets the status slot to `Status()`, i.e. `{OK, npos}`). -/
def RunJsonToBinaryEncoder (events : List Event) : EncoderState :=
  events.foldl JsonToBinaryEncoderStep ⟨[], ⟨.OK, -1⟩⟩

mutual

/-- binary_encoding.cc `ParseValue`: dispatch on the whole initial byte, then
on the major type.  Returns the events delivered to the handler, the
remaining bytes, and the error code (`OK` on success). -/
def ParseValue (fuel stackDepth : Nat) (bytes : List Nat) :
    List Event × List Nat × Err :=
  match fuel with
  | 0 => ([], bytes, .FUEL_EXHAUSTED)
  | fuel + 1 =>
    if stackDepth > kStackLimit then ([], bytes, .BINARY_ENCODING_STACK_LIMIT_EXCEEDED)
    else match bytes with
      | [] => ([], bytes, .BINARY_ENCODING_UNEXPECTED_EOF_EXPECTED_VALUE)
      | c :: rest =>
        if c = kEncodedTrue then ([.boolV true], rest, .OK)
        else if c = kEncodedFalse then ([.boolV false], rest, .OK)
        else if c = kEncodedNull then ([.null], rest, .OK)
        else if c = kInitialByteForDouble then
          match DecodeDouble (c :: rest) with
          | none => ([], c :: rest, .BINARY_ENCODING_INVALID_DOUBLE)
          | some (value, rest2) => ([.doubleV value], rest2, .OK)
        else if c = kInitialByteIndefiniteLengthArray then
          ParseArray fuel (stackDepth + 1) (c :: rest)
        else if c = kInitialByteIndefiniteLengthMap then
          ParseMap fuel (stackDepth + 1) (c :: rest)
        else
          let majorType := c >>> kMajorTypeBitShift
          if majorType = 0 ∨ majorType = 1 then
            match DecodeSigned (c :: rest) with
            | none => ([], c :: rest, .BINARY_ENCODING_INVALID_SIGNED)
            | some (value, rest2) => ([.intV value], rest2, .OK)
          else if majorType = 2 then
            match DecodeUTF16String (c :: rest) with
            | none => ([], c :: rest, .BINARY_ENCODING_INVALID_STRING16)
            | some (value, rest2) => ([.str value], rest2, .OK)
          else ([], c :: rest, .BINARY_ENCODING_UNSUPPORTED_VALUE)
termination_by structural fuel

/-- binary_encoding.cc `ParseArray`: consumes the indefinite-length array
byte (callers guarantee it is present; the `[]` case mirrors the source's
`assert(!bytes->empty())` and is unreachable), emits `ArrayBegin`, then runs
the element loop. -/
def ParseArray (fuel stackDepth : Nat) (bytes : List Nat) :
    List Event × List Nat × Err :=
  match fuel with
  | 0 => ([], bytes, .FUEL_EXHAUSTED)
  | fuel + 1 =>
    match bytes with
    | [] => ([], [], .BINARY_ENCODING_UNEXPECTED_EOF_IN_ARRAY)
    | _ :: rest =>
      let r := ParseArrayElements fuel stackDepth rest
      (.arrayBegin :: r.1, r.2)
termination_by structural fuel

/-- The `while (!bytes->empty())` loop of `ParseArray`.  On the stop byte it
emits `ArrayEnd` and returns `OK` WITHOUT advancing the span past the stop
byte (the source has no `subspan(1)` in that branch). -/
def ParseArrayElements (fuel stackDepth : Nat) (bytes : List Nat) :
    List Event × List Nat × Err :=
  match fuel with
  | 0 => ([], bytes, .FUEL_EXHAUSTED)
  | fuel + 1 =>
    match bytes with
    | [] => ([], [], .BINARY_ENCODING_UNEXPECTED_EOF_IN_ARRAY)
    | c :: rest =>
      if c = kStopByte then ([.arrayEnd], c :: rest, .OK)
      else
        let (evs, rest2, err) := ParseValue fuel stackDepth (c :: rest)
        if err = .OK then
          let r2 := ParseArrayElements fuel stackDepth rest2
          (evs ++ r2.1, r2.2)
        else (evs, rest2, err)
termination_by structural fuel

/-- binary_encoding.cc `ParseMap`: consumes the indefinite-length map byte,
emits `ObjectBegin`, then runs the entry loop. -/
def ParseMap (fuel stackDepth : Nat) (bytes : List Nat) :
    List Event × List Nat × Err :=
  match fuel with
  | 0 => ([], bytes, .FUEL_EXHAUSTED)
  | fuel + 1 =>
    match bytes with
    | [] => ([], [], .BINARY_ENCODING_UNEXPECTED_EOF_IN_MAP)
    | _ :: rest =>
      let r := ParseMapEntries fuel stackDepth rest
      (.objectBegin :: r.1, r.2)
termination_by structural fuel

/-- The `while (!bytes->empty())` loop of `ParseMap`: stop byte (emitted,
NOT consumed, as in the source), else a UTF-16 bytestring key then a value. -/
def ParseMapEntries (fuel stackDepth : Nat) (bytes : List Nat) :
    List Event × List Nat × Err :=
  match fuel with
  | 0 => ([], bytes, .FUEL_EXHAUSTED)
  | fuel + 1 =>
    match bytes with
    | [] => ([], [], .BINARY_ENCODING_UNEXPECTED_EOF_IN_MAP)
    | c :: rest =>
      if c = kStopByte then ([.objectEnd], c :: rest, .OK)
      else match DecodeUTF16String (c :: rest) with
        | none => ([], c :: rest, .BINARY_ENCODING_INVALID_MAP_KEY)
        | some (key, restAfterKey) =>
          let (evs, rest2, err) := ParseValue fuel stackDepth restAfterKey
          if err = .OK then
            let r2 := ParseMapEntries fuel stackDepth rest2
            (.str key :: (evs ++ r2.1), r2.2)
          else (.str key :: evs, rest2, err)
termination_by structural fuel

end

/-- The fuel `ParseBinary` hands to the recursion; it dominates the call
depth of the C++ recursion (which consumes at least one byte per at most
three nested calls). -/
def parseFuel (bytes : List Nat) : Nat := 3 * bytes.length + 4

/-- binary_encoding.cc `ParseBinary`: empty input and a non-`0xbf` first byte
produce errors at position 0; otherwise the events of `ParseMap`, plus — only
when the latter fails — an error event whose position is
`bytes.size() - internal_bytes.size()`. -/
def ParseBinary (bytes : List Nat) : List Event :=
  match bytes with
  | [] => [.error ⟨.BINARY_ENCODING_NO_INPUT, 0⟩]
  | c :: _ =>
    if c ≠ kInitialByteIndefiniteLengthMap then
      [.error ⟨.BINARY_ENCODING_INVALID_START_BYTE, 0⟩]
    else
      let r := ParseMap (parseFuel bytes) 1 bytes
      if r.2.2 = .OK then r.1
      else r.1 ++ [.error ⟨r.2.2, (bytes.length : Int) - (r.2.1.length : Int)⟩]

end Binary

namespace Json

/-- The token kinds of json_parser.cc (enum `Token`). -/
inductive Token
  | objectBegin
  | objectEnd
  | arrayBegin
  | arrayEnd
  | stringLiteral
  | number
  | boolTrue
  | boolFalse
  | nullToken
  | listSeparator
  | objectPairSeparator
  | invalidToken
deriving DecidableEq

/-- json_parser.cc `kNullString` ("null"). -/
def kNullString : List Nat := toCodes "null"

/-- json_parser.cc `kTrueString` ("true"). -/
def kTrueString : List Nat := toCodes "true"

/-- json_parser.cc `kFalseString` ("false"). -/
def kFalseString : List Nat := toCodes "false"

/-- json_parser.cc `ParseConstToken`.  The C++ loop
`while (start < end && *token != '\0' && *start++ == *token++) {}` increments
both pointers before the comparison result is seen, so a mismatch on the
FINAL character of the constant still leaves `*token == '\0'` and the token is
accepted; the embedding mirrors that. -/
def ParseConstToken (s : List Nat) (e : Nat) : Nat → List Nat → Option Nat
  | start, [] => some start
  | start, c :: token =>
    if start < e then
      if s.getD start 0 = c then ParseConstToken s e (start + 1) token
      else if token = [] then some (start + 1)
      else none
    else none

/-- Decimal digit test (`'0' <= *start && *start <= '9'`). -/
def isDigit (c : Nat) : Bool := decide (48 ≤ c ∧ c ≤ 57)

/-- The digit-scanning loop of json_parser.cc `ReadInt`; `fuel ≥ e - start + 1`
makes the fuel case unreachable. -/
def digitsEnd (s : List Nat) (e : Nat) : Nat → Nat → Nat
  | 0, start => start
  | fuel + 1, start =>
    if start < e then
      if isDigit (s.getD start 0) then digitsEnd s e fuel (start + 1) else start
    else start

/-- json_parser.cc `ReadInt`: at least one digit; a leading zero is only
allowed when it is the whole integer part (unless `allowLeadingZeros`). -/
def ReadInt (s : List Nat) (e start : Nat) (allowLeadingZeros : Bool) : Option Nat :=
  if start = e then none
  else
    let hasLeadingZero := s.getD start 0 = 48
    let p := digitsEnd s e (e - start + 1) start
    if p = start then none
    else if allowLeadingZeros = false ∧ p - start > 1 ∧ hasLeadingZero then none
    else some p

/-- The optional exponent part at the end of json_parser.cc
`ParseNumberToken` (`c` is the code unit at position `p`). -/
def ParseNumberExpTail (s : List Nat) (e c p : Nat) : Option Nat :=
  if c = 101 ∨ c = 69 then
    if p + 1 = e then none
    else
      let c1 := s.getD (p + 1) 0
      if c1 = 45 ∨ c1 = 43 then
        if p + 2 = e then none
        else ReadInt s e (p + 2) true
      else ReadInt s e (p + 1) true
  else some p

/-- json_parser.cc `ParseNumberToken`: `[minus] int [frac] [exp]`. -/
def ParseNumberToken (s : List Nat) (e start : Nat) : Option Nat :=
  if start = e then none
  else
    let start1 := if s.getD start 0 = 45 then start + 1 else start
    match ReadInt s e start1 false with
    | none => none
    | some p1 =>
      if p1 = e then some p1
      else if s.getD p1 0 = 46 then
        match ReadInt s e (p1 + 1) true with
        | none => none
        | some p2 =>
          if p2 = e then some p2 else ParseNumberExpTail s e (s.getD p2 0) p2
      else ParseNumberExpTail s e (s.getD p1 0) p1

/-- Hex digit test, as in json_parser.cc `ReadHexDigits`. -/
def isHexDigit (c : Nat) : Bool :=
  decide ((48 ≤ c ∧ c ≤ 57) ∨ (97 ≤ c ∧ c ≤ 102) ∨ (65 ≤ c ∧ c ≤ 70))

/-- json_parser.cc `ReadHexDigits`: exactly `digits` hex digits. -/
def ReadHexDigits (s : List Nat) (e start digits : Nat) : Option Nat :=
  if e - start < digits then none
  else if (List.range digits).all (fun i => isHexDigit (s.getD (start + i) 0)) then
    some (start + digits)
  else none

/-- The scanning loop of json_parser.cc `ParseStringToken` (called after the
opening quote): validates escapes, stops after an unescaped closing quote.
`fuel ≥ e - start + 1` makes the fuel case unreachable. -/
def ParseStringTokenLoop (s : List Nat) (e : Nat) : Nat → Nat → Option Nat
  | 0, _ => none
  | fuel + 1, start =>
    if start < e then
      let c := s.getD start 0
      if c = 92 then
        if start + 1 = e then none
        else
          let c2 := s.getD (start + 1) 0
          if c2 = 120 then
            match ReadHexDigits s e (start + 2) 2 with
            | some p => ParseStringTokenLoop s e fuel p
            | none => none
          else if c2 = 117 then
            match ReadHexDigits s e (start + 2) 4 with
            | some p => ParseStringTokenLoop s e fuel p
            | none => none
          else if c2 = 92 ∨ c2 = 47 ∨ c2 = 98 ∨ c2 = 102 ∨ c2 = 110 ∨ c2 = 114 ∨
              c2 = 116 ∨ c2 = 118 ∨ c2 = 34 then
            ParseStringTokenLoop s e fuel (start + 2)
          else none
      else if c = 34 then some (start + 1)
      else ParseStringTokenLoop s e fuel (start + 1)
    else none

/-- json_parser.cc `ParseStringToken`. -/
def ParseStringToken (s : List Nat) (e start : Nat) : Option Nat :=
  ParseStringTokenLoop s e (e - start + 1) start

/-- The scan of a `//` comment in json_parser.cc `SkipComment`: up to and
including a newline, or to end-of-input (which closes it cleanly). -/
def SingleLineEnd (s : List Nat) (e : Nat) : Nat → Nat → Nat
  | 0, p => p
  | fuel + 1, p =>
    if p < e then
      if s.getD p 0 = 10 ∨ s.getD p 0 = 13 then p + 1
      else SingleLineEnd s e fuel (p + 1)
    else e

/-- The scan of a block comment in json_parser.cc `SkipComment`: looks for
`*/` tracking the previous character (initially `'\0'`); end-of-input inside
the comment fails. -/
def BlockEnd (s : List Nat) (e : Nat) : Nat → Nat → Nat → Option Nat
  | 0, _, _ => none
  | fuel + 1, p, previous =>
    if p < e then
      if previous = 42 ∧ s.getD p 0 = 47 then some (p + 1)
      else BlockEnd s e fuel (p + 1) (s.getD p 0)
    else none

/-- json_parser.cc `SkipComment`. -/
def SkipComment (s : List Nat) (e start : Nat) : Option Nat :=
  if start = e then none
  else if s.getD start 0 ≠ 47 ∨ start + 1 ≥ e then none
  else if s.getD (start + 1) 0 = 47 then
    some (SingleLineEnd s e (e - start + 2) (start + 2))
  else if s.getD (start + 1) 0 = 42 then BlockEnd s e (e - start + 2) (start + 2) 0
  else none

/-- json_parser.cc `IsSpaceOrNewLine`: space, LF, VT, FF, CR (no TAB). -/
def IsSpaceOrNewLine (c : Nat) : Bool := decide (c = 32 ∨ c = 10 ∨ c = 11 ∨ c = 12 ∨ c = 13)

/-- The loop of json_parser.cc `SkipWhitespaceAndComments`. -/
def SkipWsLoop (s : List Nat) (e : Nat) : Nat → Nat → Nat
  | 0, start => start
  | fuel + 1, start =>
    if start < e then
      if IsSpaceOrNewLine (s.getD start 0) then SkipWsLoop s e fuel (start + 1)
      else if s.getD start 0 = 47 then
        match SkipComment s e start with
        | some commentEnd => SkipWsLoop s e fuel commentEnd
        | none => start
      else start
    else start

/-- json_parser.cc `SkipWhitespaceAndComments`. -/
def SkipWhitespaceAndComments (s : List Nat) (e start : Nat) : Nat :=
  SkipWsLoop s e (e - start + 1) start

/-- json_parser.cc `ParseToken`: skips whitespace/comments, then dispatches
on the first code unit.  Returns `(token, token_start, token_end)`; for
`invalidToken` the C++ leaves `*token_end` unassigned and no caller reads it,
so the embedding returns `token_start` there. -/
def ParseToken (s : List Nat) (e start : Nat) : Token × Nat × Nat :=
  let ts := SkipWhitespaceAndComments s e start
  if ts = e then (.invalidToken, ts, ts)
  else
    let c := s.getD ts 0
    if c = 110 then
      match ParseConstToken s e ts kNullString with
      | some p => (.nullToken, ts, p)
      | none => (.invalidToken, ts, ts)
    else if c = 116 then
      match ParseConstToken s e ts kTrueString with
      | some p => (.boolTrue, ts, p)
      | none => (.invalidToken, ts, ts)
    else if c = 102 then
      match ParseConstToken s e ts kFalseString with
      | some p => (.boolFalse, ts, p)
      | none => (.invalidToken, ts, ts)
    else if c = 91 then (.arrayBegin, ts, ts + 1)
    else if c = 93 then (.arrayEnd, ts, ts + 1)
    else if c = 44 then (.listSeparator, ts, ts + 1)
    else if c = 123 then (.objectBegin, ts, ts + 1)
    else if c = 125 then (.objectEnd, ts, ts + 1)
    else if c = 58 then (.objectPairSeparator, ts, ts + 1)
    else if (48 ≤ c ∧ c ≤ 57) ∨ c = 45 then
      match ParseNumberToken s e ts with
      | some p => (.number, ts, p)
      | none => (.invalidToken, ts, ts)
    else if c = 34 then
      match ParseStringToken s e (ts + 1) with
      | some p => (.stringLiteral, ts, p)
      | none => (.invalidToken, ts, ts)
    else (.invalidToken, ts, ts)

/-- json_parser.cc `HexToInt`; the `assert(false)` branch (unreachable after
validation) is modelled as 0. -/
def HexToInt (c : Nat) : Nat :=
  if 48 ≤ c ∧ c ≤ 57 then c - 48
  else if 65 ≤ c ∧ c ≤ 70 then c - 65 + 10
  else if 97 ≤ c ∧ c ≤ 102 then c - 97 + 10
  else 0

/-- The loop of json_parser.cc `DecodeString` over `[p, q)`, producing UTF-16
code units; `\x` is rejected, `\uXXXX` combines four hex digits.
`fuel ≥ q - p + 1` makes the fuel case unreachable. -/
def DecodeStringLoop (s : List Nat) (q : Nat) : Nat → Nat → Option (List Nat)
  | 0, _ => none
  | fuel + 1, p =>
    if p = q then some []
    else if p > q then none
    else
      let c := s.getD p 0
      if c ≠ 92 then (DecodeStringLoop s q fuel (p + 1)).map (c :: ·)
      else if p + 1 = q then none
      else
        let c2 := s.getD (p + 1) 0
        if c2 = 120 then none
        else if c2 = 34 ∨ c2 = 47 ∨ c2 = 92 then
          (DecodeStringLoop s q fuel (p + 2)).map (c2 :: ·)
        else if c2 = 98 then (DecodeStringLoop s q fuel (p + 2)).map (8 :: ·)
        else if c2 = 102 then (DecodeStringLoop s q fuel (p + 2)).map (12 :: ·)
        else if c2 = 110 then (DecodeStringLoop s q fuel (p + 2)).map (10 :: ·)
        else if c2 = 114 then (DecodeStringLoop s q fuel (p + 2)).map (13 :: ·)
        else if c2 = 116 then (DecodeStringLoop s q fuel (p + 2)).map (9 :: ·)
        else if c2 = 118 then (DecodeStringLoop s q fuel (p + 2)).map (11 :: ·)
        else if c2 = 117 then
          let u := (HexToInt (s.getD (p + 2) 0) <<< 12) + (HexToInt (s.getD (p + 3) 0) <<< 8) +
            (HexToInt (s.getD (p + 4) 0) <<< 4) + HexToInt (s.getD (p + 5) 0)
          (DecodeStringLoop s q fuel (p + 6)).map (u :: ·)
        else none

/-- json_parser.cc `DecodeString` on the range `[p, q)`. -/
def DecodeString (s : List Nat) (p q : Nat) : Option (List Nat) :=
  DecodeStringLoop s q (q - p + 1) p

/-- The events the JSON parser delivers to its handler.  `doubleV` carries
the abstract value returned by the injected `StrToD`.

Modelled from the spec: src's json_parser.cc iteration declares
`HandleError()` with no payload; the `Status`-carrying iteration that
json_parser_test.cc exercises (`HandleError(Status)`) is not under src/, so
the `kind`/`pos` payload of `error` is modelled from the spec (§4.1, §6.5,
S6: the position is the byte offset of the offending token). -/
inductive JEvent
  | objectBegin
  | objectEnd
  | arrayBegin
  | arrayEnd
  | str (chars : List Nat)
  | intV (v : Int)
  | doubleV (v : ℚ)
  | boolV (b : Bool)
  | null
  | error (kind : Err) (pos : Int)
deriving DecidableEq

/-- The parser-visible state: the events delivered to the handler so far and
the `error_` flag of class `JsonParser`. -/
structure PState where
  events : List JEvent
  err : Bool
deriving DecidableEq

/-- Delivering one non-error event to the handler. -/
def PState.push (st : PState) (ev : JEvent) : PState :=
  { st with events := st.events ++ [ev] }

/-- json_parser.cc `JsonParser::HandleError` (lines 499-504): fires the
handler's error event only if `error_` is not yet set, then latches it.

Modelled from the spec: the `kind`/`pos` arguments stand for the payload of
the missing `Status`-carrying iteration (see `JEvent`); src's iteration calls
`handler_->HandleError()` with no arguments here. -/
def HandleErr (st : PState) (kind : Err) (pos : Nat) : PState :=
  if st.err then st else ⟨st.events ++ [.error kind (pos : Int)], true⟩

/-- The code units of the token `[ts, te)`, as handed to `CharsToDouble`. -/
def tokenChars (s : List Nat) (ts te : Nat) : List Nat := (s.drop ts).take (te - ts)

/-- `static_cast<int32_t>(value)` for a double already checked to lie in
`int32` range: truncation toward zero. -/
def i32Trunc (v : ℚ) : Int := if 0 ≤ v then ⌊v⌋ else ⌈v⌉

/-- The numeric classification of json_parser.cc `ParseValue`'s `Number`
case (lines 389-394): `Int` iff the value is within `[i32 min, i32 max]` and
equals its own truncation to `int32`, else `Double`. -/
def numEventOf (v : ℚ) : JEvent :=
  if -2147483648 ≤ v ∧ v ≤ 2147483647 ∧ ((i32Trunc v : ℚ) = v) then .intV (i32Trunc v)
  else .doubleV v

/-- The common exit of the successful `switch` cases of `ParseValue`:
`SkipWhitespaceAndComments(token_end, end, value_token_end)`.  The returned
position is `some`; the error paths return `none`, mirroring that the C++
early returns leave the caller's `token_end` variable untouched. -/
def ValueDone (s : List Nat) (e : Nat) (st : PState) (te : Nat) : PState × Option Nat :=
  (st, some (SkipWhitespaceAndComments s e te))

mutual

/-- json_parser.cc `JsonParser::ParseValue`.  Parameters: the injected
`StrToD` (`strToD`), the input `s` with `e = s.length`, the position `start`,
the recursion `depth`, the parser state `st`.  Returns the new state and the
value of `*value_token_end` (`none` when the C++ returns without assigning
it).  Note the `Number` case on `CharsToDouble` failure calls
`handler_->HandleError()` DIRECTLY (json_parser.cc line 387), bypassing the
`error_` latch of `JsonParser::HandleError` — the embedding mirrors this by
appending the error event without setting `err`. -/
def ParseValue (fuel : Nat) (strToD : List Nat → Option ℚ) (s : List Nat)
    (e start depth : Nat) (st : PState) : PState × Option Nat :=
  match fuel with
  | 0 => (st, none)
  | fuel + 1 =>
    if depth > 1000 then (HandleErr st .JSON_PARSER_STACK_LIMIT_EXCEEDED start, none)
    else
      let r := ParseToken s e start
      let ts := r.2.1
      let te := r.2.2
      match r.1 with
      | .invalidToken => (HandleErr st .JSON_PARSER_INVALID_TOKEN ts, none)
      | .nullToken => ValueDone s e (st.push .null) te
      | .boolTrue => ValueDone s e (st.push (.boolV true)) te
      | .boolFalse => ValueDone s e (st.push (.boolV false)) te
      | .number =>
        match strToD (tokenChars s ts te) with
        | none => ({ st with events := st.events ++ [.error .JSON_PARSER_INVALID_NUMBER (ts : Int)] }, none)
        | some value => ValueDone s e (st.push (numEventOf value)) te
      | .stringLiteral =>
        match DecodeString s (ts + 1) (te - 1) with
        | none => (HandleErr st .JSON_PARSER_INVALID_STRING ts, none)
        | some value => ValueDone s e (st.push (.str value)) te
      | .arrayBegin =>
        let st1 := st.push .arrayBegin
        let r1 := ParseToken s e te
        ParseArrayElements fuel strToD s e te depth st1 r1.1 r1.2.1 r1.2.2
      | .objectBegin =>
        let st1 := st.push .objectBegin
        let r1 := ParseToken s e te
        ParseObjectMembers fuel strToD s e depth st1 r1.1 r1.2.1 r1.2.2
      | _ => (HandleErr st .JSON_PARSER_VALUE_EXPECTED ts, none)
termination_by structural fuel

/-- The `while (token != ArrayEnd)` loop of `ParseValue`'s `ArrayBegin` case.
State: the loop's `start`, `token`, `token_start`, `token_end` variables.
After a nested `ParseValue` that returned without assigning `*token_end`, the
stale previous value (`te`) is used, as in the C++. -/
def ParseArrayElements (fuel : Nat) (strToD : List Nat → Option ℚ) (s : List Nat)
    (e start depth : Nat) (st : PState) (tok : Token) (ts te : Nat) : PState × Option Nat :=
  match fuel with
  | 0 => (st, none)
  | fuel + 1 =>
    if tok = .arrayEnd then ValueDone s e (st.push .arrayEnd) te
    else
      let r := ParseValue fuel strToD s e start (depth + 1) st
      if r.1.err then (r.1, none)
      else
        let te1 := r.2.getD te
        let r2 := ParseToken s e te1
        if r2.1 = .listSeparator then
          let r3 := ParseToken s e r2.2.2
          if r3.1 = .arrayEnd then
            (HandleErr r.1 .JSON_PARSER_UNEXPECTED_ARRAY_END r3.2.1, none)
          else ParseArrayElements fuel strToD s e r2.2.2 depth r.1 r3.1 r3.2.1 r3.2.2
        else if r2.1 = .arrayEnd then ValueDone s e (r.1.push .arrayEnd) r2.2.2
        else (HandleErr r.1 .JSON_PARSER_COMMA_OR_ARRAY_END_EXPECTED r2.2.1, none)
termination_by structural fuel

/-- The `while (token != ObjectEnd)` loop of `ParseValue`'s `ObjectBegin`
case: a string-literal key, `:`, a value, then `,` or `}`. -/
def ParseObjectMembers (fuel : Nat) (strToD : List Nat → Option ℚ) (s : List Nat)
    (e depth : Nat) (st : PState) (tok : Token) (ts te : Nat) : PState × Option Nat :=
  match fuel with
  | 0 => (st, none)
  | fuel + 1 =>
    if tok = .objectEnd then ValueDone s e (st.push .objectEnd) te
    else if tok ≠ .stringLiteral then
      (HandleErr st .JSON_PARSER_STRING_LITERAL_EXPECTED ts, none)
    else
      match DecodeString s (ts + 1) (te - 1) with
      | none => (HandleErr st .JSON_PARSER_INVALID_STRING ts, none)
      | some key =>
        let st1 := st.push (.str key)
        let rc := ParseToken s e te
        if rc.1 ≠ .objectPairSeparator then
          (HandleErr st1 .JSON_PARSER_COLON_EXPECTED rc.2.1, none)
        else
          let r := ParseValue fuel strToD s e rc.2.2 (depth + 1) st1
          if r.1.err then (r.1, none)
          else
            let te1 := r.2.getD rc.2.2
            let r2 := ParseToken s e te1
            if r2.1 = .listSeparator then
              let r3 := ParseToken s e r2.2.2
              if r3.1 = .objectEnd then
                (HandleErr r.1 .JSON_PARSER_UNEXPECTED_OBJECT_END r3.2.1, none)
              else ParseObjectMembers fuel strToD s e depth r.1 r3.1 r3.2.1 r3.2.2
            else if r2.1 = .objectEnd then ValueDone s e (r.1.push .objectEnd) r2.2.2
            else (HandleErr r.1 .JSON_PARSER_COMMA_OR_OBJECT_END_EXPECTED r2.2.1, none)
termination_by structural fuel

end

/-- json_parser.cc `JsonParser::Parse` / `parseJSONChars` (the 8-bit
instantiation; the 16-bit one differs only in `CharsToDouble`'s ASCII
pre-check, which cannot fire on a tokenizer-accepted number literal, so both
instantiations are this same function of the injected `strToD`).  After
`ParseValue`, `if (tokenEnd != end) HandleError();` — when `ParseValue`
returned without assigning `tokenEnd`, the C++ compares an indeterminate
value, which is unequal to `end`; `HandleError` is the latching wrapper, so
this is visible only when `error_` is still clear (the `Number`-case slip). -/
def parseJSONChars (strToD : List Nat → Option ℚ) (s : List Nat) : List JEvent :=
  let r := ParseValue (2 * s.length + 4) strToD s s.length 0 0 ⟨[], false⟩
  match r.2 with
  | some tokenEnd =>
    if tokenEnd ≠ s.length then
      (HandleErr r.1 .JSON_PARSER_UNPROCESSED_INPUT_REMAINS tokenEnd).events
    else r.1.events
  | none => (HandleErr r.1 .JSON_PARSER_UNPROCESSED_INPUT_REMAINS 0).events

end Json

namespace Writer

/-- json_std_string_writer.cc `Container`. -/
inductive Container
  | NONE
  | OBJECT
  | ARRAY
deriving DecidableEq

/-- json_std_string_writer.cc `State`: a container kind and its element
count. -/
structure Frame where
  container : Container
  size : Nat
deriving DecidableEq

/-- The writer's state: the `State` stack (head = top), the caller-owned
output string (as code units) and the caller-owned `error` flag.  src's
iteration stores a `bool`, not a `Status` (json_std_string_writer.cc
`Writer::HandleError`). -/
structure WState where
  stack : List Frame
  out : List Nat
  err : Bool
deriving DecidableEq

/-- json_std_string_writer.cc `State::StartElement`: emit `,` or `:` (colon
inside an object at odd element counts) before every element but the first,
then count the element. -/
def StartElement (f : Frame) (out : List Nat) : Frame × List Nat :=
  let out1 := if f.size ≠ 0 then
      out ++ [if f.size % 2 = 0 ∨ f.container = .ARRAY then 44 else 58]
    else out
  ({ f with container := f.container, size := f.size + 1 }, out1)

/-- `state_.top().StartElement(out_)` (the C++ mutates the top frame in
place; the `[]` case mirrors the asserted-nonempty stack and is
unreachable). -/
def topStart (st : WState) : WState :=
  match st.stack with
  | [] => st
  | f :: rest =>
    let r := StartElement f st.out
    { st with stack := r.1 :: rest, out := r.2 }

/-- json_std_string_writer.cc `PrintHex`: 4 hex digits, most significant
first, lowercase. -/
def PrintHex (value : Nat) : List Nat :=
  [3, 2, 1, 0].map (fun ii =>
    let fourBits := 0xf &&& (value >>> (4 * ii))
    fourBits + (if fourBits ≤ 9 then 48 else 87))

/-- The per-code-unit escaping of `Writer::HandleString`. -/
def EscapeChar (ch : Nat) : List Nat :=
  if ch = 34 then [92, 34]
  else if ch = 92 then [92, 92]
  else if ch = 8 then [92, 98]
  else if ch = 12 then [92, 102]
  else if ch = 10 then [92, 110]
  else if ch = 13 then [92, 114]
  else if ch = 9 then [92, 116]
  else if 32 ≤ ch ∧ ch ≤ 126 then [ch]
  else 92 :: 117 :: PrintHex ch

/-- `std::to_string` for `HandleInt`. -/
def IntChars (v : Int) : List Nat := toCodes (toString v)

/-- One event dispatch of json_std_string_writer.cc `Writer`.  Every handler
except `HandleError` is a no-op once the error flag is set; `HandleError`
(line 140) ONLY sets the caller's flag — it records no status and does not
clear the output.  `dToStr` is the injected `DToStr` on the double's bit
pattern. -/
def HandleEvent (dToStr : Nat → List Nat) (st : WState) : Event → WState
  | .objectBegin =>
    if st.err then st
    else
      let st1 := topStart st
      { st1 with stack := ⟨.OBJECT, 0⟩ :: st1.stack, out := st1.out ++ [123] }
  | .objectEnd =>
    if st.err then st
    else { st with stack := st.stack.tail, out := st.out ++ [125] }
  | .arrayBegin =>
    if st.err then st
    else
      let st1 := topStart st
      { st1 with stack := ⟨.ARRAY, 0⟩ :: st1.stack, out := st1.out ++ [91] }
  | .arrayEnd =>
    if st.err then st
    else { st with stack := st.stack.tail, out := st.out ++ [93] }
  | .str chars =>
    if st.err then st
    else
      let st1 := topStart st
      { st1 with out := st1.out ++ [34] ++ chars.flatMap EscapeChar ++ [34] }
  | .doubleV bits =>
    if st.err then st
    else
      let st1 := topStart st
      { st1 with out := st1.out ++ dToStr bits }
  | .intV v =>
    if st.err then st
    else
      let st1 := topStart st
      { st1 with out := st1.out ++ IntChars v }
  | .boolV b =>
    if st.err then st
    else
      let st1 := topStart st
      { st1 with out := st1.out ++ (if b then toCodes "true" else toCodes "false") }
  | .null =>
    if st.err then st
    else
      let st1 := topStart st
      { st1 with out := st1.out ++ toCodes "null" }
  | .error _ => { st with err := true }

/-- Feeding a whole event sequence to a fresh `Writer` (constructor: clear
the error flag, push the `NONE` frame; the caller-owned output string starts
empty as in the unit tests). -/
def Run (dToStr : Nat → List Nat) (events : List Event) : WState :=
  events.foldl (HandleEvent dToStr) ⟨[⟨.NONE, 0⟩], [], false⟩

end Writer

end InspectorProtocol

/-! ## Supporting lemmas: byte-level arithmetic of the CBOR primitives -/

namespace InspectorProtocol

namespace Binary

theorem lor_shift_eq_add {b : Nat} (k : Nat) (hb : b < 2 ^ k) (a : Nat) :
    (a <<< k) ||| b = a * 2 ^ k + b := by
  rw [Nat.shiftLeft_eq, Nat.mul_comm a (2 ^ k), ← Nat.mul_add_lt_is_or hb a,
    Nat.mul_comm (2 ^ k) a]

theorem and255 (x : Nat) : 0xff &&& x = x % 256 := by
  rw [Nat.and_comm]
  have h : (0xff : Nat) = 2 ^ 8 - 1 := by norm_num
  rw [h, Nat.and_pow_two_sub_one_eq_mod]

theorem writeBytes_length (w v : Nat) :
    (WriteBytesMostSignificantByteFirst w v).length = w := by
  simp [WriteBytesMostSignificantByteFirst]

theorem writeBytes_succ (w v : Nat) :
    WriteBytesMostSignificantByteFirst (w + 1) v =
      (0xff &&& (v >>> (w * 8))) :: WriteBytesMostSignificantByteFirst w v := by
  simp [WriteBytesMostSignificantByteFirst, List.range_succ]

theorem byte_mod_eq (v w s : Nat) (hs : s < w) :
    0xff &&& ((v % 2 ^ (8 * w)) >>> (s * 8)) = 0xff &&& (v >>> (s * 8)) := by
  rw [and255, and255, Nat.shiftRight_eq_div_pow, Nat.shiftRight_eq_div_pow]
  rw [← Nat.mod_mul_right_div_self, ← Nat.mod_mul_right_div_self v (2 ^ (s * 8)) 256]
  have h1 : (2 : Nat) ^ (s * 8) * 256 = 2 ^ (s * 8 + 8) := by
    rw [Nat.pow_add]
  rw [h1, Nat.mod_mod_of_dvd]
  exact Nat.pow_dvd_pow 2 (by omega)

theorem writeBytes_mod (w v : Nat) :
    WriteBytesMostSignificantByteFirst w (v % 2 ^ (8 * w)) =
      WriteBytesMostSignificantByteFirst w v := by
  unfold WriteBytesMostSignificantByteFirst
  apply List.map_congr_left
  intro s hs
  rw [List.mem_reverse, List.mem_range] at hs
  exact byte_mod_eq v w s hs

theorem readBytes_succ (w msb : Nat) (R : List Nat) :
    ReadBytesMostSignificantByteFirst (w + 1) (msb :: R) =
      ReadBytesMostSignificantByteFirst w R ||| (msb <<< (w * 8)) := by
  unfold ReadBytesMostSignificantByteFirst
  rw [List.range_succ, List.foldl_append]
  simp only [List.foldl_cons, List.foldl_nil]
  have h0 : w + 1 - 1 - w = 0 := by omega
  rw [h0]
  congr 1
  apply List.foldl_ext
  intro acc s hs
  rw [List.mem_range] at hs
  have h2 : w + 1 - 1 - s = (w - 1 - s) + 1 := by omega
  rw [h2, List.getD_cons_succ]

theorem readBytes_writeBytes (w : Nat) : ∀ v t, v < 2 ^ (8 * w) →
    ReadBytesMostSignificantByteFirst w (WriteBytesMostSignificantByteFirst w v ++ t) = v := by
  induction w with
  | zero =>
    intro v t hv
    interval_cases v
    rfl
  | succ w ih =>
    intro v t hv
    have hsplit : (2 : Nat) ^ (8 * (w + 1)) = 2 ^ (8 * w) * 256 := by
      rw [show 8 * (w + 1) = 8 * w + 8 by ring, Nat.pow_add]
    rw [writeBytes_succ, List.cons_append, readBytes_succ,
      ← writeBytes_mod w v, ih (v % 2 ^ (8 * w)) t (Nat.mod_lt _ (by positivity))]
    have hdivlt : v / 2 ^ (8 * w) < 256 := by
      rw [Nat.div_lt_iff_lt_mul (by positivity)]
      omega
    have hmsb : 0xff &&& (v >>> (w * 8)) = v / 2 ^ (8 * w) := by
      rw [and255, Nat.shiftRight_eq_div_pow, Nat.mul_comm w 8, Nat.mod_eq_of_lt hdivlt]
    rw [hmsb, Nat.lor_comm,
      lor_shift_eq_add (w * 8) (by rw [Nat.mul_comm w 8]; exact Nat.mod_lt _ (by positivity))]
    rw [Nat.mul_comm w 8, Nat.mul_comm (v / 2 ^ (8 * w)) (2 ^ (8 * w)), Nat.div_add_mod]

theorem ib_decode : ∀ ty < 8, ∀ ai < 32,
    ((EncodeInitialByte ty ai) &&& 0xe0) >>> kMajorTypeBitShift = ty ∧
      (EncodeInitialByte ty ai) &&& 0x1f = ai := by
  decide

theorem drop_writeBytes (w v : Nat) (t : List Nat) :
    (WriteBytesMostSignificantByteFirst w v ++ t).drop w = t := by
  have h := List.drop_left (WriteBytesMostSignificantByteFirst w v) t
  rwa [writeBytes_length] at h

/-- `ReadItemStart` inverts `WriteItemStart` across all four width classes,
consuming exactly the encoding. -/
theorem readItemStart_writeItemStart (ty : Nat) (hty : ty < 8) (v : Nat) (hv : v < 2 ^ 64)
    (t : List Nat) : ReadItemStart (WriteItemStart ty v ++ t) = some (ty, v, t) := by
  unfold WriteItemStart
  by_cases h1 : v < 24
  · obtain ⟨hd1, hd2⟩ := ib_decode ty hty v (by omega)
    rw [if_pos h1]
    simp only [List.cons_append, List.nil_append, ReadItemStart, hd1, hd2]
    rw [if_pos h1]
  · rw [if_neg h1]
    by_cases h2 : v ≤ 0xff
    · obtain ⟨hd1, hd2⟩ := ib_decode ty hty 24 (by omega)
      rw [if_pos h2]
      simp only [List.cons_append, List.nil_append, ReadItemStart, hd1, hd2]
      norm_num
    · rw [if_neg h2]
      by_cases h3 : v ≤ 0xffff
      · obtain ⟨hd1, hd2⟩ := ib_decode ty hty 25 (by omega)
        rw [if_pos h3]
        simp only [List.cons_append, ReadItemStart, hd1, hd2]
        have hlen : (WriteBytesMostSignificantByteFirst 2 v ++ t).length + 1 < 3 ↔ False := by
          simp [writeBytes_length]
        have hrb := readBytes_writeBytes 2 v t (by norm_num at h3 ⊢; omega)
        have hdr : (WriteBytesMostSignificantByteFirst 2 v ++ t).drop 2 = t :=
          drop_writeBytes 2 v t
        simp only [List.length_cons, hlen, if_false, hrb, List.drop_succ_cons, hdr]
        norm_num
      · rw [if_neg h3]
        by_cases h4 : v ≤ 0xffffffff
        · obtain ⟨hd1, hd2⟩ := ib_decode ty hty 26 (by omega)
          rw [if_pos h4]
          simp only [List.cons_append, ReadItemStart, hd1, hd2]
          have hlen : (WriteBytesMostSignificantByteFirst 4 v ++ t).length + 1 < 5 ↔ False := by
            simp [writeBytes_length]
          have hrb := readBytes_writeBytes 4 v t (by norm_num at h4 ⊢; omega)
          have hdr : (WriteBytesMostSignificantByteFirst 4 v ++ t).drop 4 = t :=
            drop_writeBytes 4 v t
          simp only [List.length_cons, hlen, if_false, hrb, List.drop_succ_cons, hdr]
          norm_num
        · obtain ⟨hd1, hd2⟩ := ib_decode ty hty 27 (by omega)
          rw [if_neg h4]
          simp only [List.cons_append, ReadItemStart, hd1, hd2]
          have hlen : (WriteBytesMostSignificantByteFirst 8 v ++ t).length + 1 < 9 ↔ False := by
            simp [writeBytes_length]
          have hrb := readBytes_writeBytes 8 v t (by norm_num at hv ⊢; omega)
          have hdr : (WriteBytesMostSignificantByteFirst 8 v ++ t).drop 8 = t :=
            drop_writeBytes 8 v t
          simp only [List.length_cons, hlen, if_false, hrb, List.drop_succ_cons, hdr]
          norm_num

theorem decodeUnsigned_encodeUnsigned (v : Nat) (hv : v < 2 ^ 64) (t : List Nat) :
    DecodeUnsigned (EncodeUnsigned v ++ t) = some (v, t) := by
  unfold DecodeUnsigned EncodeUnsigned
  rw [readItemStart_writeItemStart 0 (by norm_num) v hv t]
  simp

theorem decodeSigned_encodeSigned (n : Int) (h1 : -2147483648 ≤ n) (h2 : n < 2147483648)
    (t : List Nat) : DecodeSigned (EncodeSigned n ++ t) = some (n, t) := by
  unfold EncodeSigned
  by_cases hn : 0 ≤ n
  · rw [if_pos hn]
    unfold EncodeUnsigned DecodeSigned
    have hlt : n.toNat < 2 ^ 64 := by
      have h64 : (2 : Nat) ^ 64 = 18446744073709551616 := by norm_num
      omega
    rw [readItemStart_writeItemStart 0 (by norm_num) n.toNat hlt t]
    simp only []
    rw [if_pos trivial, if_pos (by omega : n.toNat ≤ 2147483647), Int.toNat_of_nonneg hn]
  · rw [if_neg hn]
    unfold EncodeNegative DecodeSigned
    have hm : ((-(n + 1)).toNat : Int) = -(n + 1) := by omega
    have hlt : (-(n + 1)).toNat < 2 ^ 64 := by
      have h64 : (2 : Nat) ^ 64 = 18446744073709551616 := by norm_num
      omega
    rw [readItemStart_writeItemStart 1 (by norm_num) (-(n + 1)).toNat hlt t]
    simp only []
    have hsmall : (-(n + 1)).toNat < 2 ^ 63 := by
      have h63 : (2 : Nat) ^ 63 = 9223372036854775808 := by norm_num
      omega
    rw [if_pos hsmall, if_pos trivial, hm]
    have hval : -(-(n + 1)) - 1 = n := by ring
    rw [hval]
    rw [if_pos (h1 : (-2147483648 : Int) ≤ n)]
    norm_num

end Binary

/-- C7: For every int32 `n`, `DecodeSigned` applied to a span beginning with
the bytes produced by `EncodeSigned n` succeeds, yields `n`, and advances the
span exactly past those bytes (returning exactly the trailing bytes `t`);
likewise, for every uint64 `v`, `DecodeUnsigned` inverts `EncodeUnsigned v`
and consumes exactly the encoding, across all four payload width classes. -/
theorem claim_C7 :
    (∀ n : Int, -2147483648 ≤ n → n < 2147483648 → ∀ t : List Nat,
      Binary.DecodeSigned (Binary.EncodeSigned n ++ t) = some (n, t)) ∧
    (∀ v : Nat, v < 2 ^ 64 → ∀ t : List Nat,
      Binary.DecodeUnsigned (Binary.EncodeUnsigned v ++ t) = some (v, t)) :=
  ⟨fun n h1 h2 t => Binary.decodeSigned_encodeSigned n h1 h2 t,
   fun v hv t => Binary.decodeUnsigned_encodeUnsigned v hv t⟩

/-- Witness for C7 at concrete inputs from each width class and sign. -/
theorem claim_C7_witness :
    Binary.DecodeSigned (Binary.EncodeSigned (-300) ++ [7]) = some (-300, [7]) ∧
    Binary.DecodeSigned (Binary.EncodeSigned 23 ++ []) = some (23, []) ∧
    Binary.DecodeUnsigned (Binary.EncodeUnsigned 500 ++ [9]) = some (500, [9]) ∧
    Binary.DecodeUnsigned (Binary.EncodeUnsigned 18446744073709551615 ++ []) =
      some (18446744073709551615, []) :=
  ⟨claim_C7.1 (-300) (by norm_num) (by norm_num) [7],
   claim_C7.1 23 (by norm_num) (by norm_num) [],
   claim_C7.2 500 (by norm_num) [9],
   claim_C7.2 18446744073709551615 (by norm_num) []⟩

end InspectorProtocol

namespace InspectorProtocol
namespace Binary

theorem readItemStart_length {b : List Nat} {ty v : Nat} {r : List Nat}
    (h : ReadItemStart b = some (ty, v, r)) : r.length < b.length := by
  match b with
  | [] => simp [ReadItemStart] at h
  | c :: rest =>
    simp only [ReadItemStart, List.length_cons] at h
    split_ifs at h <;>
      first
        | (simp only [Option.some.injEq, Prod.mk.injEq] at h
           obtain ⟨hty, hv, hr⟩ := h
           subst hr
           simp only [List.length_drop, List.length_cons, List.length_tail]
           omega)
        | simp at h

theorem decodeUTF16_length {b : List Nat} {cs r : List Nat}
    (h : DecodeUTF16String b = some (cs, r)) : r.length < b.length := by
  unfold DecodeUTF16String at h
  cases hri : ReadItemStart b with
  | none => rw [hri] at h; simp at h
  | some x =>
    obtain ⟨ty, v, rest⟩ := x
    rw [hri] at h
    have hlen := readItemStart_length hri
    simp only [] at h
    split_ifs at h with h1 h2 h3
    simp only [Option.some.injEq, Prod.mk.injEq] at h
    obtain ⟨hcs, hr⟩ := h
    subst hr
    simp only [List.length_drop]
    omega

theorem decodeSigned_length {b : List Nat} {v : Int} {r : List Nat}
    (h : DecodeSigned b = some (v, r)) : r.length < b.length := by
  unfold DecodeSigned at h
  cases hri : ReadItemStart b with
  | none => rw [hri] at h; simp at h
  | some x =>
    obtain ⟨ty, ev, rest⟩ := x
    rw [hri] at h
    have hlen := readItemStart_length hri
    simp only [] at h
    split_ifs at h <;> simp_all

theorem decodeDouble_length {b : List Nat} {v : Nat} {r : List Nat}
    (h : DecodeDouble b = some (v, r)) : r.length < b.length := by
  unfold DecodeDouble at h
  split_ifs at h with h1 h2
  simp only [Option.some.injEq, Prod.mk.injEq] at h
  obtain ⟨hv, hr⟩ := h
  subst hr
  unfold kEncodedDoubleSize at *
  simp only [List.length_drop]
  omega

end Binary
end InspectorProtocol

namespace InspectorProtocol
namespace Binary

/-- The CBOR reader only ever shortens the span: the remaining bytes of every
parsing routine are at most as long as the input. -/
theorem parse_length_le (fuel : Nat) :
    (∀ d b, ((ParseValue fuel d b).2.1.length ≤ b.length)) ∧
    (∀ d b, ((ParseArray fuel d b).2.1.length ≤ b.length)) ∧
    (∀ d b, ((ParseMap fuel d b).2.1.length ≤ b.length)) ∧
    (∀ d b, ((ParseArrayElements fuel d b).2.1.length ≤ b.length)) ∧
    (∀ d b, ((ParseMapEntries fuel d b).2.1.length ≤ b.length)) := by
  induction fuel with
  | zero =>
    refine ⟨?_, ?_, ?_, ?_, ?_⟩ <;>
      intro d b <;>
      simp [ParseValue, ParseArray, ParseMap, ParseArrayElements, ParseMapEntries]
  | succ fuel ih =>
    obtain ⟨ihV, ihA, ihM, ihAE, ihME⟩ := ih
    have hV : ∀ d b, ((ParseValue (fuel + 1) d b).2.1.length ≤ b.length) := by
      intro d b
      rw [ParseValue.eq_def]
      simp only []
      split_ifs with hd
      · simp
      cases b with
      | nil => simp
      | cons c rest =>
        simp only []
        split_ifs with h1 h2 h3 h4 h5 h6 h7 h8
        · simp
        · simp
        · simp
        · cases hdd : DecodeDouble (c :: rest) with
          | none => simp
          | some x =>
            obtain ⟨v, r⟩ := x
            simpa using Nat.le_of_lt (decodeDouble_length hdd)
        · exact ihA (d + 1) (c :: rest)
        · exact ihM (d + 1) (c :: rest)
        · cases hds : DecodeSigned (c :: rest) with
          | none => simp
          | some x =>
            obtain ⟨v, r⟩ := x
            simpa using Nat.le_of_lt (decodeSigned_length hds)
        · cases hdu : DecodeUTF16String (c :: rest) with
          | none => simp
          | some x =>
            obtain ⟨v, r⟩ := x
            simpa using Nat.le_of_lt (decodeUTF16_length hdu)
        · simp
    have hAE : ∀ d b, ((ParseArrayElements (fuel + 1) d b).2.1.length ≤ b.length) := by
      intro d b
      rw [ParseArrayElements.eq_def]
      simp only []
      cases b with
      | nil => simp
      | cons c rest =>
        simp only []
        by_cases h1 : c = kStopByte
        · simp [h1]
        rw [if_neg h1]
        rcases hPV : ParseValue fuel d (c :: rest) with ⟨evs, rest2, err⟩
        have h2 := ihV d (c :: rest)
        rw [hPV] at h2
        simp only [] at h2 ⊢
        by_cases h3 : err = Err.OK
        · rw [if_pos h3]
          simp only []
          exact Nat.le_trans (ihAE d rest2) h2
        · rw [if_neg h3]
          exact h2
    have hME : ∀ d b, ((ParseMapEntries (fuel + 1) d b).2.1.length ≤ b.length) := by
      intro d b
      rw [ParseMapEntries.eq_def]
      simp only []
      cases b with
      | nil => simp
      | cons c rest =>
        simp only []
        by_cases h1 : c = kStopByte
        · simp [h1]
        rw [if_neg h1]
        cases hdu : DecodeUTF16String (c :: rest) with
        | none => simp
        | some x =>
          obtain ⟨key, restk⟩ := x
          have hk := Nat.le_of_lt (decodeUTF16_length hdu)
          simp only []
          rcases hPV : ParseValue fuel d restk with ⟨evs, rest2, err⟩
          have h2 := ihV d restk
          rw [hPV] at h2
          simp only [] at h2 ⊢
          by_cases h3 : err = Err.OK
          · rw [if_pos h3]
            simp only []
            exact Nat.le_trans (ihME d rest2) (Nat.le_trans h2 hk)
          · rw [if_neg h3]
            exact Nat.le_trans h2 hk
    have hA : ∀ d b, ((ParseArray (fuel + 1) d b).2.1.length ≤ b.length) := by
      intro d b
      rw [ParseArray.eq_def]
      simp only []
      cases b with
      | nil => simp
      | cons c rest =>
        simp only []
        exact Nat.le_trans (ihAE d rest) (by simp)
    have hM : ∀ d b, ((ParseMap (fuel + 1) d b).2.1.length ≤ b.length) := by
      intro d b
      rw [ParseMap.eq_def]
      simp only []
      cases b with
      | nil => simp
      | cons c rest =>
        simp only []
        exact Nat.le_trans (ihME d rest) (by simp)
    exact ⟨hV, hA, hM, hAE, hME⟩

/-- The CBOR reader's recursive routines deliver no error event themselves;
only `ParseBinary` turns a non-OK code into an error event. -/
theorem parse_no_error (fuel : Nat) :
    (∀ d b st, Event.error st ∉ (ParseValue fuel d b).1) ∧
    (∀ d b st, Event.error st ∉ (ParseArray fuel d b).1) ∧
    (∀ d b st, Event.error st ∉ (ParseMap fuel d b).1) ∧
    (∀ d b st, Event.error st ∉ (ParseArrayElements fuel d b).1) ∧
    (∀ d b st, Event.error st ∉ (ParseMapEntries fuel d b).1) := by
  induction fuel with
  | zero =>
    refine ⟨?_, ?_, ?_, ?_, ?_⟩ <;>
      intro d b st <;>
      simp [ParseValue, ParseArray, ParseMap, ParseArrayElements, ParseMapEntries]
  | succ fuel ih =>
    obtain ⟨ihV, ihA, ihM, ihAE, ihME⟩ := ih
    have hV : ∀ d b st, Event.error st ∉ (ParseValue (fuel + 1) d b).1 := by
      intro d b st
      rw [ParseValue.eq_def]
      simp only []
      split_ifs with hd
      · simp
      cases b with
      | nil => simp
      | cons c rest =>
        simp only []
        split_ifs with h1 h2 h3 h4 h5 h6 h7 h8
        · simp
        · simp
        · simp
        · cases hdd : DecodeDouble (c :: rest) with
          | none => simp
          | some x => obtain ⟨v, r⟩ := x; simp
        · exact ihA (d + 1) (c :: rest) st
        · exact ihM (d + 1) (c :: rest) st
        · cases hds : DecodeSigned (c :: rest) with
          | none => simp
          | some x => obtain ⟨v, r⟩ := x; simp
        · cases hdu : DecodeUTF16String (c :: rest) with
          | none => simp
          | some x => obtain ⟨v, r⟩ := x; simp
        · simp
    have hAE : ∀ d b st, Event.error st ∉ (ParseArrayElements (fuel + 1) d b).1 := by
      intro d b st
      rw [ParseArrayElements.eq_def]
      simp only []
      cases b with
      | nil => simp
      | cons c rest =>
        simp only []
        by_cases h1 : c = kStopByte
        · simp [h1]
        rw [if_neg h1]
        rcases hPV : ParseValue fuel d (c :: rest) with ⟨evs, rest2, err⟩
        have h2 := ihV d (c :: rest) st
        rw [hPV] at h2
        simp only [] at h2 ⊢
        by_cases h3 : err = Err.OK
        · rw [if_pos h3]
          simp only [List.mem_append]
          push_neg
          exact ⟨h2, ihAE d rest2 st⟩
        · rw [if_neg h3]
          exact h2
    have hME : ∀ d b st, Event.error st ∉ (ParseMapEntries (fuel + 1) d b).1 := by
      intro d b st
      rw [ParseMapEntries.eq_def]
      simp only []
      cases b with
      | nil => simp
      | cons c rest =>
        simp only []
        by_cases h1 : c = kStopByte
        · simp [h1]
        rw [if_neg h1]
        cases hdu : DecodeUTF16String (c :: rest) with
        | none => simp
        | some x =>
          obtain ⟨key, restk⟩ := x
          simp only []
          rcases hPV : ParseValue fuel d restk with ⟨evs, rest2, err⟩
          have h2 := ihV d restk st
          rw [hPV] at h2
          simp only [] at h2 ⊢
          by_cases h3 : err = Err.OK
          · rw [if_pos h3]
            simp only [List.mem_cons, List.mem_append]
            push_neg
            exact ⟨by simp, h2, ihME d rest2 st⟩
          · rw [if_neg h3]
            simp only [List.mem_cons]
            push_neg
            exact ⟨by simp, h2⟩
    have hA : ∀ d b st, Event.error st ∉ (ParseArray (fuel + 1) d b).1 := by
      intro d b st
      rw [ParseArray.eq_def]
      simp only []
      cases b with
      | nil => simp
      | cons c rest =>
        simp only [List.mem_cons]
        push_neg
        exact ⟨by simp, ihAE d rest st⟩
    have hM : ∀ d b st, Event.error st ∉ (ParseMap (fuel + 1) d b).1 := by
      intro d b st
      rw [ParseMap.eq_def]
      simp only []
      cases b with
      | nil => simp
      | cons c rest =>
        simp only [List.mem_cons]
        push_neg
        exact ⟨by simp, ihME d rest st⟩
    exact ⟨hV, hA, hM, hAE, hME⟩

end Binary
end InspectorProtocol

namespace InspectorProtocol

/-- C6: For every byte sequence, every error event `ParseBinary` delivers has
`pos` equal to the total input length minus the length of the remaining
unconsumed span — with `0 ≤ pos ≤ length` — and on the main path the status
is exactly `⟨err, length - remaining⟩` for the failing `ParseMap` run. -/
theorem claim_C6 (bytes : List Nat) :
    (∀ st : Status, Event.error st ∈ Binary.ParseBinary bytes →
      0 ≤ st.pos ∧ st.pos ≤ (bytes.length : Int)) ∧
    (∀ evs rest err, bytes.head? = some Binary.kInitialByteIndefiniteLengthMap →
      Binary.ParseMap (Binary.parseFuel bytes) 1 bytes = (evs, rest, err) → err ≠ Err.OK →
      Binary.ParseBinary bytes =
        evs ++ [Event.error ⟨err, (bytes.length : Int) - (rest.length : Int)⟩]) := by
  constructor
  · intro st hmem
    match bytes with
    | [] =>
      simp only [Binary.ParseBinary, List.mem_singleton, Event.error.injEq] at hmem
      subst hmem
      simp
    | c :: brest =>
      simp only [Binary.ParseBinary] at hmem
      by_cases hc : c = Binary.kInitialByteIndefiniteLengthMap
      · rw [if_neg (by simp [hc])] at hmem
        rcases hPM : Binary.ParseMap (Binary.parseFuel (c :: brest)) 1 (c :: brest) with
          ⟨evs, rest, err⟩
        rw [hPM] at hmem
        have hnoerr := (Binary.parse_no_error (Binary.parseFuel (c :: brest))).2.2.1 1 (c :: brest) st
        rw [hPM] at hnoerr
        simp only [] at hmem hnoerr
        have hlen := (Binary.parse_length_le (Binary.parseFuel (c :: brest))).2.2.1 1 (c :: brest)
        rw [hPM] at hlen
        simp only [] at hlen
        by_cases herr : err = Err.OK
        · rw [if_pos herr] at hmem
          exact absurd hmem hnoerr
        · rw [if_neg herr] at hmem
          rw [List.mem_append] at hmem
          rcases hmem with hmem | hmem
          · exact absurd hmem hnoerr
          · rw [List.mem_singleton, Event.error.injEq] at hmem
            subst hmem
            simp only []
            constructor
            · omega
            · omega
      · rw [if_pos (by simp [hc])] at hmem
        rw [List.mem_singleton, Event.error.injEq] at hmem
        subst hmem
        constructor
        · simp
        · simp only [Status.pos]
          omega
  · intro evs rest err hhead hPM herr
    match bytes with
    | [] => simp at hhead
    | c :: brest =>
      simp only [List.head?_cons, Option.some.injEq] at hhead
      subst hhead
      simp only [Binary.ParseBinary, if_neg (by simp : ¬(Binary.kInitialByteIndefiniteLengthMap ≠ Binary.kInitialByteIndefiniteLengthMap))]
      rw [hPM]
      simp only []
      rw [if_neg herr]

/-- Witness for C6: the two-byte input `bf 00` fails with
`INVALID_MAP_KEY` at position 1, which lies within `[0, 2]`. -/
theorem claim_C6_witness :
    Event.error ⟨Err.BINARY_ENCODING_INVALID_MAP_KEY, 1⟩ ∈ Binary.ParseBinary [0xbf, 0] ∧
    (0 : Int) ≤ (1 : Int) ∧ (1 : Int) ≤ (([0xbf, 0] : List Nat).length : Int) :=
  have hmem : Event.error ⟨Err.BINARY_ENCODING_INVALID_MAP_KEY, 1⟩ ∈
      Binary.ParseBinary [0xbf, 0] := by decide
  ⟨hmem, (claim_C6 [0xbf, 0]).1 ⟨Err.BINARY_ENCODING_INVALID_MAP_KEY, 1⟩ hmem⟩

/-- C10: when the top-level `ParseMap` returns OK, `ParseBinary` returns its
events unchanged — it never looks at the remaining (trailing) bytes and
delivers no error event. -/
theorem claim_C10 (bytes : List Nat) (evs : List Event) (rest : List Nat)
    (hhead : bytes.head? = some Binary.kInitialByteIndefiniteLengthMap)
    (hpm : Binary.ParseMap (Binary.parseFuel bytes) 1 bytes = (evs, rest, Err.OK)) :
    Binary.ParseBinary bytes = evs ∧ ∀ st : Status, Event.error st ∉ evs := by
  match bytes with
  | [] => simp at hhead
  | c :: brest =>
    simp only [List.head?_cons, Option.some.injEq] at hhead
    subst hhead
    constructor
    · simp only [Binary.ParseBinary, if_neg (by simp : ¬(Binary.kInitialByteIndefiniteLengthMap ≠ Binary.kInitialByteIndefiniteLengthMap))]
      rw [hpm]
      simp
    · intro st
      have hnoerr := (Binary.parse_no_error
        (Binary.parseFuel (Binary.kInitialByteIndefiniteLengthMap :: brest))).2.2.1 1
        (Binary.kInitialByteIndefiniteLengthMap :: brest) st
      rw [hpm] at hnoerr
      exact hnoerr

/-- Witness for C10: `bf ff` followed by trailing garbage `de ad` parses to
ObjectBegin, ObjectEnd with no error. -/
theorem claim_C10_witness :
    Binary.ParseBinary [0xbf, 0xff, 0xde, 0xad] = [Event.objectBegin, Event.objectEnd] ∧
    ∀ st : Status, Event.error st ∉ ([Event.objectBegin, Event.objectEnd] : List Event) :=
  claim_C10 [0xbf, 0xff, 0xde, 0xad] [Event.objectBegin, Event.objectEnd] [0xff, 0xde, 0xad]
    (by decide) (by decide)

/-- C2 (evaluation at the failing input): at a container loop head whose next
byte is the stop byte `0xff`, `ParseMap` / `ParseArray` emit ObjectEnd /
ArrayEnd and return OK but do NOT consume the stop byte: the remaining span
is still `[0xff]`, not `[]`. -/
theorem claim_C2 :
    Binary.ParseMap 10 1 [0xbf, 0xff] =
      ([Event.objectBegin, Event.objectEnd], [0xff], Err.OK) ∧
    Binary.ParseArray 10 1 [0x9f, 0xff] =
      ([Event.arrayBegin, Event.arrayEnd], [0xff], Err.OK) := by
  constructor
  · decide
  · decide

/-- C1 (evaluation at the failing input): the event sequence of
`{"a":[],"b":1}` round-trips through `JsonToBinaryEncoder` then `ParseBinary`
to the events of `{"a":[]}` — the events after the nested container are lost
(the unconsumed stop byte of the inner array also terminates the outer map),
so the round-trip is NOT the identity, although no error event is emitted. -/
theorem claim_C1 :
    Binary.ParseBinary (Binary.RunJsonToBinaryEncoder
        [Event.objectBegin, Event.str [97], Event.arrayBegin, Event.arrayEnd,
         Event.str [98], Event.intV 1, Event.objectEnd]).out =
      [Event.objectBegin, Event.str [97], Event.arrayBegin, Event.arrayEnd,
       Event.objectEnd] ∧
    Binary.ParseBinary (Binary.RunJsonToBinaryEncoder
        [Event.objectBegin, Event.str [97], Event.arrayBegin, Event.arrayEnd,
         Event.str [98], Event.intV 1, Event.objectEnd]).out ≠
      [Event.objectBegin, Event.str [97], Event.arrayBegin, Event.arrayEnd,
       Event.str [98], Event.intV 1, Event.objectEnd] ∧
    ∀ st : Status, Event.error st ∉ Binary.ParseBinary (Binary.RunJsonToBinaryEncoder
        [Event.objectBegin, Event.str [97], Event.arrayBegin, Event.arrayEnd,
         Event.str [98], Event.intV 1, Event.objectEnd]).out := by
  refine ⟨by decide, by decide, ?_⟩
  intro st
  have h : Binary.ParseBinary (Binary.RunJsonToBinaryEncoder
      [Event.objectBegin, Event.str [97], Event.arrayBegin, Event.arrayEnd,
       Event.str [98], Event.intV 1, Event.objectEnd]).out =
      [Event.objectBegin, Event.str [97], Event.arrayBegin, Event.arrayEnd,
       Event.objectEnd] := by decide
  rw [h]
  simp

end InspectorProtocol

namespace InspectorProtocol
namespace Binary

/-- The stack-depth guard of the CBOR `ParseValue`: any call beyond the limit
returns the stack-limit error immediately, with no events and the span
untouched. -/
theorem parseValue_guard (fuel stackDepth : Nat) (bytes : List Nat)
    (hd : stackDepth > kStackLimit) :
    ParseValue (fuel + 1) stackDepth bytes =
      ([], bytes, Err.BINARY_ENCODING_STACK_LIMIT_EXCEEDED) := by
  rw [ParseValue.eq_def]
  simp only []
  rw [if_pos hd]

/-- Unbounded nesting of indefinite-length arrays drives the CBOR reader into
the depth guard: from depth `d` with `d + k = 1001`, a run of more than `k`
array-open bytes produces `k` ArrayBegin events and then the stack-limit
error, leaving the input beyond the `k` consumed bytes unread. -/
theorem parseValue_deep (k : Nat) : ∀ d fuel m, d + k = 1001 → 3 * k + 1 ≤ fuel → k < m →
    ParseValue fuel d (List.replicate m 0x9f) =
      (List.replicate k Event.arrayBegin, List.replicate (m - k) 0x9f,
       Err.BINARY_ENCODING_STACK_LIMIT_EXCEEDED) := by
  induction k with
  | zero =>
    intro d fuel m hd hf hm
    obtain ⟨f, rfl⟩ : ∃ f, fuel = f + 1 := ⟨fuel - 1, by omega⟩
    rw [parseValue_guard f d _ (by simp [kStackLimit]; omega)]
    simp
  | succ k ih =>
    intro d fuel m hd hf hm
    obtain ⟨f, rfl⟩ : ∃ f, fuel = f + 1 := ⟨fuel - 1, by omega⟩
    obtain ⟨f2, rfl⟩ : ∃ f2, f = f2 + 1 := ⟨f - 1, by omega⟩
    obtain ⟨f3, rfl⟩ : ∃ f3, f2 = f3 + 1 := ⟨f2 - 1, by omega⟩
    obtain ⟨m1, rfl⟩ : ∃ m1, m = m1 + 1 := ⟨m - 1, by omega⟩
    rw [ParseValue.eq_def]
    simp only []
    rw [if_neg (by simp [kStackLimit]; omega)]
    rw [List.replicate_succ]
    simp only []
    rw [if_neg (by decide), if_neg (by decide), if_neg (by decide), if_neg (by decide),
      if_pos (by decide)]
    rw [ParseArray.eq_def]
    simp only []
    rw [ParseArrayElements.eq_def]
    simp only []
    obtain ⟨m2, rfl⟩ : ∃ m2, m1 = m2 + 1 := ⟨m1 - 1, by omega⟩
    rw [List.replicate_succ]
    simp only []
    rw [if_neg (by decide)]
    rw [← List.replicate_succ]
    rw [ih (d + 1) f3 (m2 + 1) (by omega) (by omega) (by omega)]
    simp only []
    rw [if_neg (by decide)]
    rw [← List.replicate_succ]
    have harith : m2 + 1 - k = m2 + 1 + 1 - (k + 1) := by omega
    rw [harith]


end Binary
end InspectorProtocol

namespace InspectorProtocol
namespace Binary

set_option maxRecDepth 100000 in
/-- The map-entry loop on input key `"a"` followed by a deep array nest. -/
theorem parseMapEntries_deep (f m : Nat) (hf : 3001 ≤ f) (hm : 1000 < m) :
    ParseMapEntries (f + 1) 1 ([0x42, 97, 0] ++ List.replicate m 0x9f) =
      (Event.str [97] :: List.replicate 1000 Event.arrayBegin,
       List.replicate (m - 1000) 0x9f, Err.BINARY_ENCODING_STACK_LIMIT_EXCEEDED) := by
  rw [ParseMapEntries.eq_def]
  simp only [List.cons_append, List.nil_append]
  rw [if_neg (by decide)]
  have hri : ReadItemStart (0x42 :: 97 :: 0 :: List.replicate m 0x9f) =
      some (2, 2, 97 :: 0 :: List.replicate m 0x9f) := by
    rw [ReadItemStart.eq_def]
    simp only []
    rw [if_pos (by decide)]
    rfl
  have hdu : DecodeUTF16String (0x42 :: 97 :: 0 :: List.replicate m 0x9f) =
      some ([97], List.replicate m 0x9f) := by
    rw [DecodeUTF16String.eq_def, hri]
    simp only []
    rw [if_neg (by decide)]
    rw [if_neg (by simp only [List.length_cons]; omega)]
    rw [if_neg (by decide)]
    rfl
  rw [hdu]
  simp only []
  rw [parseValue_deep 1000 1 f m (by omega) (by omega) hm]
  rfl

set_option maxRecDepth 100000 in
/-- The CBOR reader on a map whose single value is a deeply nested array:
`bf`, key `"a"`, then `1001 + n` array-open bytes.  It emits ObjectBegin, the
key, 1000 ArrayBegin events, then the stack-limit error at position 1004 (the
offset of the 1001st array-open byte). -/
theorem parseBinary_deep (n : Nat) :
    ParseBinary ([0xbf, 0x42, 97, 0] ++ List.replicate (1001 + n) 0x9f) =
      Event.objectBegin :: Event.str [97] :: (List.replicate 1000 Event.arrayBegin ++
        [Event.error ⟨Err.BINARY_ENCODING_STACK_LIMIT_EXCEEDED, 1004⟩]) := by
  have hshape : ([0xbf, 0x42, 97, 0] ++ List.replicate (1001 + n) 0x9f : List Nat) =
      0xbf :: ([0x42, 97, 0] ++ List.replicate (1001 + n) 0x9f) := rfl
  rw [hshape, ParseBinary]
  rw [if_neg (by decide)]
  have hfuel : parseFuel (0xbf :: ([0x42, 97, 0] ++ List.replicate (1001 + n) 0x9f)) =
      (3 * n + 3018) + 1 := by
    rw [parseFuel]
    simp only [List.length_cons, List.length_append, List.length_replicate,
      List.length_nil]
    omega
  rw [hfuel, ParseMap.eq_def]
  simp only []
  rw [parseMapEntries_deep (3 * n + 3017) (1001 + n) (by omega) (by omega)]
  rw [if_neg (by decide : ¬(Err.BINARY_ENCODING_STACK_LIMIT_EXCEEDED = Err.OK))]
  have hlen1 : (0xbf :: ([0x42, 97, 0] ++ List.replicate (1001 + n) 0x9f)).length =
      1005 + n := by
    simp only [List.length_cons, List.length_append, List.length_replicate,
      List.length_nil]
    omega
  have hlen2 : (List.replicate (1001 + n - 1000) 0x9f).length = n + 1 := by
    rw [List.length_replicate]
    omega
  rw [hlen1, hlen2]
  have hpos : ((1005 + n : Nat) : Int) - ((n + 1 : Nat) : Int) = 1004 := by
    push_cast
    ring
  rw [hpos]
  simp only [List.cons_append, List.nil_append]

end Binary
end InspectorProtocol

namespace InspectorProtocol
namespace Json

/-- Every position below `N` of the all-`[` input reads back code 91. -/
theorem getD_repl (N d : Nat) (h : d < N) :
    (List.replicate N (91 : Nat)).getD d 0 = 91 := by
  rw [List.getD_eq_getElem?_getD, List.getElem?_replicate]
  simp [h]

/-- Whitespace-and-comment skipping is the identity on the all-`[` input. -/
theorem skipWs_repl (N d : Nat) :
    SkipWhitespaceAndComments (List.replicate N 91) N d = d := by
  rw [SkipWhitespaceAndComments]
  rw [SkipWsLoop]
  by_cases h : d < N
  · rw [if_pos h, getD_repl N d h]
    rw [if_neg (by decide)]
    rw [if_neg (by decide)]
  · rw [if_neg h]

/-- On the all-`[` input, the tokenizer returns ArrayBegin at every in-range
position, with `token_end` one past the open bracket. -/
theorem parseToken_repl (N d : Nat) (h : d < N) :
    ParseToken (List.replicate N 91) N d = (Token.arrayBegin, d, d + 1) := by
  rw [ParseToken]
  simp only [skipWs_repl, getD_repl N d h]
  rw [if_neg (by omega)]
  norm_num

/-- The stack-depth guard of the JSON `ParseValue` (json_parser.cc lines
361-366): any call beyond the limit reports the stack-limit error at the
current position and returns without recursing. -/
theorem parseValueJ_guard (fuel : Nat) (strToD : List Nat → Option ℚ) (s : List Nat)
    (e start depth : Nat) (st : PState) (h : depth > 1000) :
    ParseValue (fuel + 1) strToD s e start depth st =
      (HandleErr st Err.JSON_PARSER_STACK_LIMIT_EXCEEDED start, none) := by
  rw [ParseValue.eq_def]
  simp only []
  rw [if_pos h]

/-- Unbounded `[` nesting drives the JSON parser into the depth guard: from
position and depth `d` with `d + k = 1001`, the remaining recursion emits `k`
ArrayBegin events and then the stack-limit error at offset 1001. -/
theorem parseValueJ_deep (k : Nat) : ∀ d fuel st, d + k = 1001 → 2 * k + 2 ≤ fuel →
    st.err = false → ∀ N strToD, 1002 ≤ N →
    ParseValue fuel strToD (List.replicate N 91) N d d st =
      (⟨st.events ++ (List.replicate k JEvent.arrayBegin ++
        [JEvent.error Err.JSON_PARSER_STACK_LIMIT_EXCEEDED 1001]), true⟩, none) := by
  induction k with
  | zero =>
    intro d fuel st hd hf he N strToD hN
    obtain ⟨f, rfl⟩ : ∃ f, fuel = f + 1 := ⟨fuel - 1, by omega⟩
    rw [parseValueJ_guard f strToD _ N d d st (by omega)]
    rw [HandleErr]
    rw [if_neg (by rw [he]; exact Bool.false_ne_true)]
    have hd1 : d = 1001 := by omega
    subst hd1
    simp only [List.replicate, List.nil_append, Nat.cast_ofNat]
  | succ k ih =>
    intro d fuel st hd hf he N strToD hN
    obtain ⟨f, rfl⟩ : ∃ f, fuel = f + 1 := ⟨fuel - 1, by omega⟩
    rw [ParseValue.eq_def]
    simp only []
    rw [if_neg (by omega)]
    rw [parseToken_repl N d (by omega)]
    simp only []
    rw [parseToken_repl N (d + 1) (by omega)]
    simp only []
    obtain ⟨f2, rfl⟩ : ∃ f2, f = f2 + 1 := ⟨f - 1, by omega⟩
    rw [ParseArrayElements.eq_def]
    simp only []
    rw [if_neg (by decide)]
    rw [ih (d + 1) f2 (st.push JEvent.arrayBegin) (by omega) (by omega)
      (by simp [PState.push, he]) N strToD hN]
    simp only []
    rw [if_pos trivial]
    simp only [PState.push, List.append_assoc, List.replicate_succ, List.cons_append,
      List.nil_append, List.singleton_append]

/-- The entry point on `1002 + n` open brackets: exactly 1001 ArrayBegin
events, then the stack-limit error at offset 1001, and nothing after it. -/
theorem parseJSONChars_deep (n : Nat) (strToD : List Nat → Option ℚ) :
    parseJSONChars strToD (List.replicate (1002 + n) 91) =
      List.replicate 1001 JEvent.arrayBegin ++
        [JEvent.error Err.JSON_PARSER_STACK_LIMIT_EXCEEDED 1001] := by
  rw [parseJSONChars]
  simp only [List.length_replicate]
  rw [parseValueJ_deep 1001 0 (2 * (1002 + n) + 4) ⟨[], false⟩ (by omega) (by omega) rfl
    (1002 + n) strToD (by omega)]
  simp only []
  rw [HandleErr]
  rw [if_pos rfl]
  simp only [List.nil_append]

end Json
end InspectorProtocol

namespace InspectorProtocol

/-- C9: both parsers bound their recursion at depth 1000.
(i) The JSON `ParseValue` at any depth beyond 1000 reports
`JSON_PARSER_STACK_LIMIT_EXCEEDED` at the current position and returns
without recursing, for every input, position and handler state;
(ii) for the family of inputs of `1002 + n` nested `[`, the JSON entry point
delivers exactly 1001 ArrayBegin events and then the stack-limit error at
byte offset 1001, and nothing further;
(iii) the CBOR `ParseValue` at any depth beyond `kStackLimit = 1000` returns
`BINARY_ENCODING_STACK_LIMIT_EXCEEDED` with no events and the span untouched;
(iv) for the family of maps whose value is a nest of `1001 + n` array opens,
`ParseBinary` delivers ObjectBegin, the key, 1000 ArrayBegin events and then
the stack-limit error, recursing no deeper. -/
theorem claim_C9 :
    (∀ (fuel : Nat) (strToD : List Nat → Option ℚ) (s : List Nat) (e start depth : Nat)
      (st : Json.PState), depth > 1000 →
      Json.ParseValue (fuel + 1) strToD s e start depth st =
        (Json.HandleErr st Err.JSON_PARSER_STACK_LIMIT_EXCEEDED start, none)) ∧
    (∀ (n : Nat) (strToD : List Nat → Option ℚ),
      Json.parseJSONChars strToD (List.replicate (1002 + n) 91) =
        List.replicate 1001 Json.JEvent.arrayBegin ++
          [Json.JEvent.error Err.JSON_PARSER_STACK_LIMIT_EXCEEDED 1001]) ∧
    (∀ (fuel stackDepth : Nat) (bytes : List Nat), stackDepth > Binary.kStackLimit →
      Binary.ParseValue (fuel + 1) stackDepth bytes =
        ([], bytes, Err.BINARY_ENCODING_STACK_LIMIT_EXCEEDED)) ∧
    (∀ n : Nat,
      Binary.ParseBinary ([0xbf, 0x42, 97, 0] ++ List.replicate (1001 + n) 0x9f) =
        Event.objectBegin :: Event.str [97] :: (List.replicate 1000 Event.arrayBegin ++
          [Event.error ⟨Err.BINARY_ENCODING_STACK_LIMIT_EXCEEDED, 1004⟩])) :=
  ⟨fun fuel strToD s e start depth st h =>
    Json.parseValueJ_guard fuel strToD s e start depth st h,
   fun n strToD => Json.parseJSONChars_deep n strToD,
   fun fuel stackDepth bytes h => Binary.parseValue_guard fuel stackDepth bytes h,
   fun n => Binary.parseBinary_deep n⟩

/-- C9 witness: the guards fire at depth 1001 on concrete inputs, and the
concrete deep inputs (1002 brackets; a map holding 1001 array opens) produce
exactly the predicted event sequences. -/
theorem claim_C9_witness :
    Json.ParseValue 1 (fun _ => none) [] 0 0 1001 ⟨[], false⟩ =
      (Json.HandleErr ⟨[], false⟩ Err.JSON_PARSER_STACK_LIMIT_EXCEEDED 0, none) ∧
    Json.parseJSONChars (fun _ => none) (List.replicate 1002 91) =
      List.replicate 1001 Json.JEvent.arrayBegin ++
        [Json.JEvent.error Err.JSON_PARSER_STACK_LIMIT_EXCEEDED 1001] ∧
    Binary.ParseValue 1 1001 [0xf6] = ([], [0xf6], Err.BINARY_ENCODING_STACK_LIMIT_EXCEEDED) ∧
    Binary.ParseBinary ([0xbf, 0x42, 97, 0] ++ List.replicate 1001 0x9f) =
      Event.objectBegin :: Event.str [97] :: (List.replicate 1000 Event.arrayBegin ++
        [Event.error ⟨Err.BINARY_ENCODING_STACK_LIMIT_EXCEEDED, 1004⟩]) :=
  ⟨claim_C9.1 0 (fun _ => none) [] 0 0 1001 ⟨[], false⟩ (by decide),
   claim_C9.2.1 0 (fun _ => none),
   claim_C9.2.2.1 0 1001 [0xf6] (by decide),
   claim_C9.2.2.2 0⟩

end InspectorProtocol

namespace InspectorProtocol

/-- Once the string writer's error flag is set, every event (the error event
included) leaves the writer state unchanged. -/
theorem writer_err_noop (dToStr : Nat → List Nat) (st : Writer.WState)
    (h : st.err = true) : ∀ ev, Writer.HandleEvent dToStr st ev = st := by
  obtain ⟨stk, out, err⟩ := st
  simp only [] at h
  subst h
  intro ev
  cases ev <;> rfl

/-- Folding any event sequence over an already-errored writer state is the
identity. -/
theorem writer_foldl_err (dToStr : Nat → List Nat) (evs : List Event) :
    ∀ st : Writer.WState, st.err = true →
      List.foldl (Writer.HandleEvent dToStr) st evs = st := by
  induction evs with
  | nil => intro st _; rfl
  | cons ev evs ih =>
    intro st h
    rw [List.foldl_cons, writer_err_noop dToStr st h ev]
    exact ih st h

/-- A JSON-to-CBOR encoder run that ends with an error event ends with an
empty output and the supplied status, whatever came before. -/
theorem encoder_err_last (pre : List Event) (s : Status) :
    Binary.RunJsonToBinaryEncoder (pre ++ [Event.error s]) = ⟨[], s⟩ := by
  rw [Binary.RunJsonToBinaryEncoder, List.foldl_append]
  rfl

/-- C4 counterexample to the claim as stated.  The string writer, fed
ObjectBegin and then an error event, leaves the partial output `\x7b` in the
caller's buffer — the buffer is neither cleared nor a complete document.  The
JSON-to-CBOR encoder, fed an error event and then Null, appends the encoding
of Null after the error — subsequent events are not no-ops for it. -/
theorem claim_C4_counter :
    (Writer.Run (fun _ => []) [Event.objectBegin,
        Event.error ⟨Err.JSON_PARSER_VALUE_EXPECTED, 42⟩]).out = toCodes "\x7b" ∧
    (Writer.Run (fun _ => []) [Event.objectBegin,
        Event.error ⟨Err.JSON_PARSER_VALUE_EXPECTED, 42⟩]).out ≠ [] ∧
    (Binary.RunJsonToBinaryEncoder [Event.error ⟨Err.JSON_PARSER_VALUE_EXPECTED, 42⟩,
        Event.null]).out = [0xf6] ∧
    (Binary.RunJsonToBinaryEncoder [Event.error ⟨Err.JSON_PARSER_VALUE_EXPECTED, 42⟩,
        Event.null]).out ≠ [] :=
  ⟨rfl, by decide, rfl, by decide⟩

/-- C4, corrected: the two handlers divide the claimed behaviours between
them.  The string writer latches its error flag and treats every subsequent
event as a no-op, but records no status and does not clear the output (its
`HandleError` only sets the caller's bool).  The JSON-to-CBOR encoder records
the supplied status and clears the output at the moment of the error, so a
run ending in an error event returns an empty buffer and that status — but it
does not suppress events arriving after the error. -/
theorem claim_C4 :
    (∀ (dToStr : Nat → List Nat) (st : Writer.WState) (evs : List Event),
      st.err = true → List.foldl (Writer.HandleEvent dToStr) st evs = st) ∧
    (∀ (dToStr : Nat → List Nat) (st : Writer.WState) (s : Status),
      Writer.HandleEvent dToStr st (Event.error s) = { st with err := true }) ∧
    (∀ (st : Binary.EncoderState) (s : Status),
      Binary.JsonToBinaryEncoderStep st (Event.error s) = ⟨[], s⟩) ∧
    (∀ (pre : List Event) (s : Status),
      (Binary.RunJsonToBinaryEncoder (pre ++ [Event.error s])).out = [] ∧
      (Binary.RunJsonToBinaryEncoder (pre ++ [Event.error s])).status = s) :=
  ⟨fun dToStr st evs h => writer_foldl_err dToStr evs st h,
   fun _ _ _ => rfl,
   fun _ _ => rfl,
   fun pre s => by rw [encoder_err_last pre s]; exact ⟨rfl, rfl⟩⟩

/-- C4 witness: an errored writer state absorbs a Null event unchanged; the
writer's error handler only sets the flag; the encoder's error handler clears
the buffer and records the status; a concrete encoder run ending in an error
returns an empty buffer. -/
theorem claim_C4_witness :
    (⟨[], [97], true⟩ : Writer.WState).err = true ∧
    List.foldl (Writer.HandleEvent (fun _ => [])) ⟨[], [97], true⟩ [Event.null] =
      (⟨[], [97], true⟩ : Writer.WState) ∧
    Writer.HandleEvent (fun _ => []) ⟨[⟨Writer.Container.NONE, 0⟩], [], false⟩
      (Event.error ⟨Err.JSON_PARSER_NO_INPUT, 0⟩) =
      (⟨[⟨Writer.Container.NONE, 0⟩], [], true⟩ : Writer.WState) ∧
    Binary.JsonToBinaryEncoderStep ⟨[0xf6], ⟨Err.OK, -1⟩⟩
      (Event.error ⟨Err.JSON_PARSER_NO_INPUT, 7⟩) =
      (⟨[], ⟨Err.JSON_PARSER_NO_INPUT, 7⟩⟩ : Binary.EncoderState) ∧
    (Binary.RunJsonToBinaryEncoder ([Event.objectBegin] ++
      [Event.error ⟨Err.JSON_PARSER_NO_INPUT, 7⟩])).out = [] :=
  ⟨rfl,
   claim_C4.1 (fun _ => []) ⟨[], [97], true⟩ [Event.null] rfl,
   claim_C4.2.1 (fun _ => []) ⟨[⟨Writer.Container.NONE, 0⟩], [], false⟩ ⟨Err.JSON_PARSER_NO_INPUT, 0⟩,
   claim_C4.2.2.1 ⟨[0xf6], ⟨Err.OK, -1⟩⟩ ⟨Err.JSON_PARSER_NO_INPUT, 7⟩,
   (claim_C4.2.2.2 [Event.objectBegin] ⟨Err.JSON_PARSER_NO_INPUT, 7⟩).1⟩

set_option maxRecDepth 100000 in
/-- C5: parsing `\x7b"foo": 3.1415, "bar: 31415e-4\x7d`, with a `StrToD` that
reads the literal `3.1415` as the rational 3.1415, delivers ObjectBegin, the
key `foo`, the number event for that value, and then exactly one error event —
`JSON_PARSER_STRING_LITERAL_EXPECTED` at byte offset 16, the start of the
unterminated key — with no further events and no value events for the
malformed key. -/
theorem claim_C5 :
    Json.parseJSONChars
      (fun cs => if cs = toCodes "3.1415" then some ((31415 : ℚ) / 10000) else none)
      (toCodes "\x7b\"foo\": 3.1415, \"bar: 31415e-4\x7d") =
      [Json.JEvent.objectBegin, Json.JEvent.str (toCodes "foo"),
       Json.numEventOf ((31415 : ℚ) / 10000),
       Json.JEvent.error Err.JSON_PARSER_STRING_LITERAL_EXPECTED 16] := rfl

set_option maxRecDepth 100000 in
/-- C3 is violated by the code: on input `[1e999,1e999]` with a `StrToD` that
rejects the overflowing literal `1e999`, the parse delivers TWO error events
and an ArrayEnd event after the first error.  The `Number` case of
`JsonParser::ParseValue` (json_parser.cc line 387) calls the handler's
`HandleError` directly, bypassing the latching wrapper of lines 499-504, so
`error_` is never set and parsing continues. -/
theorem claim_C3 :
    Json.parseJSONChars (fun cs => if cs = toCodes "1e999" then none else some 0)
      (toCodes "[1e999,1e999]") =
      [Json.JEvent.arrayBegin, Json.JEvent.error Err.JSON_PARSER_INVALID_NUMBER 1,
       Json.JEvent.error Err.JSON_PARSER_INVALID_NUMBER 7, Json.JEvent.arrayEnd] := rfl

/-- C8: when the tokenizer accepts a number literal at the current position
and the injected `StrToD` converts its characters to the double `v`, the
parser emits the event `numEventOf v` and resumes after the literal; and
`numEventOf v` is `Int` (of the i32 truncation) precisely when `v` lies in
`[i32 min, i32 max]` and equals its own truncation toward zero, `Double v`
otherwise. -/
theorem claim_C8 (fuel : Nat) (strToD : List Nat → Option ℚ) (s : List Nat)
    (e start depth : Nat) (st : Json.PState) (ts te : Nat) (v : ℚ)
    (hdepth : depth ≤ 1000)
    (htok : Json.ParseToken s e start = (Json.Token.number, ts, te))
    (hconv : strToD (Json.tokenChars s ts te) = some v) :
    Json.ParseValue (fuel + 1) strToD s e start depth st =
      (st.push (Json.numEventOf v), some (Json.SkipWhitespaceAndComments s e te)) ∧
    ((-2147483648 ≤ v ∧ v ≤ 2147483647 ∧ ((Json.i32Trunc v : ℚ) = v)) →
      Json.numEventOf v = Json.JEvent.intV (Json.i32Trunc v)) ∧
    (¬(-2147483648 ≤ v ∧ v ≤ 2147483647 ∧ ((Json.i32Trunc v : ℚ) = v)) →
      Json.numEventOf v = Json.JEvent.doubleV v) := by
  refine ⟨?_, ?_, ?_⟩
  · rw [Json.ParseValue.eq_def]
    simp only []
    rw [if_neg (by omega)]
    rw [htok]
    simp only []
    rw [hconv]
    rfl
  · intro h
    rw [Json.numEventOf, if_pos h]
  · intro h
    rw [Json.numEventOf, if_neg h]

/-- C8 witness on the literal `42`: the tokenizer accepts it, the injected
conversion returns the rational 42, and the parser emits the corresponding
number event (an Int event, 42 being in i32 range). -/
theorem claim_C8_witness :
    (0 : Nat) ≤ 1000 ∧
    Json.ParseToken (toCodes "42") 2 0 = (Json.Token.number, 0, 2) ∧
    (fun cs => if cs = toCodes "42" then some (42 : ℚ) else none)
      (Json.tokenChars (toCodes "42") 0 2) = some 42 ∧
    Json.ParseValue 1 (fun cs => if cs = toCodes "42" then some (42 : ℚ) else none)
      (toCodes "42") 2 0 0 ⟨[], false⟩ =
      (Json.PState.push ⟨[], false⟩ (Json.numEventOf 42),
       some (Json.SkipWhitespaceAndComments (toCodes "42") 2 2)) :=
  ⟨by decide, rfl, rfl,
   (claim_C8 0 (fun cs => if cs = toCodes "42" then some (42 : ℚ) else none)
     (toCodes "42") 2 0 0 ⟨[], false⟩ 0 2 42 (by decide) rfl rfl).1⟩

end InspectorProtocol
